import Mathlib

/-!
Verification of the PR-bubble promotion API (FastAPI + SQLAlchemy service).

The development shallowly embeds the Python sources:
  app/services/pr_service.py   (list / duplicate / active-list / track operations)
  app/schemas/pr_bubble.py     (pydantic validation of create / update payloads)
  app/api/pr.py                (redirect-URL validation, UTM URL building, redirect flow)
together with the parts of Python's standard library the code calls
(`urllib.parse.urlsplit / urlunsplit / parse_qsl / urlencode / quote_plus / unquote`,
`int(s, 16)`, `str.upper`), modelled faithfully for the CPython 3.11 semantics.

Python strings are embedded as `List Char` (a Python `str` is a sequence of
Unicode code points, as is `List Char`); `datetime` values are embedded as `Int`
instants (all stored datetimes are timezone-aware UTC, so they are totally
ordered); the database table is embedded as a `List PRBubble` with the primary
key `id` embedded as the canonical UUID string.
-/

namespace GizPR

/-- A Python `str`: a sequence of Unicode code points. -/
abbrev PyStr := List Char

/-- ASCII lower-casing of one character (Python `str.lower` on ASCII data;
every string the code lower-cases has been checked to be ASCII first). -/
def asciiLowerChar (c : Char) : Char :=
  if 65 ≤ c.toNat ∧ c.toNat ≤ 90 then Char.ofNat (c.toNat + 32) else c

/-- ASCII upper-casing of one character (Python `str.upper` on ASCII data;
the only upper-cased values in the code are accepted `#RRGGBB`-like strings,
which are ASCII). -/
def asciiUpperChar (c : Char) : Char :=
  if 97 ≤ c.toNat ∧ c.toNat ≤ 122 then Char.ofNat (c.toNat - 32) else c

/-- Python `str.upper` (ASCII scope, see `asciiUpperChar`). -/
def pyStrUpper (s : PyStr) : PyStr := s.map asciiUpperChar

/-! ## Data model: app/models/pr_bubble.py -/

/-- `TagType(str, enum.Enum)`. -/
inductive TagType where
  | gizmart
  | custom
deriving DecidableEq

/-- `PRStatus(str, enum.Enum)`. -/
inductive PRStatus where
  | draft
  | active
  | inactive
deriving DecidableEq

/-- One row of the `pr_bubbles` table (`class PRBubble(Base)`).
`id` is the canonical string of the UUID primary key; datetimes are `Int`
instants; `priority` and `utm_campaign` are nullable. -/
structure PRBubble where
  id : PyStr
  title : PyStr
  description : PyStr
  image_url : PyStr
  link_url : PyStr
  tag_type : TagType
  tag_text : PyStr
  tag_color : PyStr
  start_date : Int
  end_date : Int
  priority : Option Int
  status : PRStatus
  utm_campaign : Option PyStr
  view_count : Nat
  click_count : Nat
  created_at : Int
  updated_at : Int
deriving DecidableEq

/-! ## Service layer: app/services/pr_service.py -/

/-- `PRService.get_pr_by_id`: `select(PRBubble).where(PRBubble.id == pr_id)`,
`scalar_one_or_none()`.  `id` is the primary key, so the first match is the
unique match. -/
def get_pr_by_id (store : List PRBubble) (pr_id : PyStr) : Option PRBubble :=
  store.find? (fun p => p.id == pr_id)

/-- Replace the (unique) row whose `id` is `pr_id` by `f` of it: SQLAlchemy
mutating the single ORM object returned by `get_pr_by_id` and flushing. -/
def updateFirst (store : List PRBubble) (pr_id : PyStr) (f : PRBubble → PRBubble) :
    List PRBubble :=
  match store with
  | [] => []
  | p :: ps => if p.id == pr_id then f p :: ps else p :: updateFirst ps pr_id f

/-- `pr.view_count += 1`. -/
def bumpView (p : PRBubble) : PRBubble := { p with view_count := p.view_count + 1 }

/-- `pr.click_count += 1`. -/
def bumpClick (p : PRBubble) : PRBubble := { p with click_count := p.click_count + 1 }

/-- `PRService.track_pr(pr_id, track_type)`: look the promotion up (`False` if
absent), then increment `view_count` for `"view"`, `click_count` for `"click"`,
and return `False` without mutation for any other tag. -/
def track_pr (store : List PRBubble) (pr_id : PyStr) (track_type : PyStr) :
    Bool × List PRBubble :=
  match get_pr_by_id store pr_id with
  | none => (false, store)
  | some _ =>
    if track_type = "view".toList then (true, updateFirst store pr_id bumpView)
    else if track_type = "click".toList then (true, updateFirst store pr_id bumpClick)
    else (false, store)

/-- The localized copy marker appended by `duplicate_pr`. -/
def copySuffix : PyStr := "(コピー)".toList

/-- The title computation of `PRService.duplicate_pr`:
`f"{original.title[:35]}(コピー)" if len(original.title) > 35 else
f"{original.title}(コピー)"`, then hard-truncated to 40 characters when longer. -/
def duplicateTitle (title : PyStr) : PyStr :=
  let new_title := if title.length > 35 then title.take 35 ++ copySuffix
                   else title ++ copySuffix
  if new_title.length > 40 then new_title.take 40 else new_title

/-- `PRService.duplicate_pr`: copy the source row with the new title, status
reset to DRAFT and both counters reset to 0.  `new_id` and `now` stand for the
database-generated primary key and `created_at`/`updated_at` of the new row. -/
def duplicate_pr (store : List PRBubble) (pr_id : PyStr) (new_id : PyStr) (now : Int) :
    Option PRBubble :=
  (get_pr_by_id store pr_id).map fun original =>
    { original with
      id := new_id
      title := duplicateTitle original.title
      status := PRStatus.draft
      view_count := 0
      click_count := 0
      created_at := now
      updated_at := now }

/-- The ORDER BY of `get_active_prs`: `priority.asc().nullslast()`, ties broken
by `created_at.desc()` (non-strict, so it is total). -/
def activeLe (a b : PRBubble) : Bool :=
  match a.priority, b.priority with
  | some x, some y => x < y ∨ (x = y ∧ b.created_at ≤ a.created_at)
  | some _, none => true
  | none, some _ => false
  | none, none => b.created_at ≤ a.created_at

/-- The WHERE clause of `get_active_prs`:
`status == ACTIVE`, `start_date <= now`, `end_date >= now`. -/
def isActiveAt (now : Int) (p : PRBubble) : Bool :=
  p.status == PRStatus.active && decide (p.start_date ≤ now) && decide (now ≤ p.end_date)

/-- `activeLe` as a decidable relation (for `List.insertionSort`). -/
def ActiveLeR (a b : PRBubble) : Prop := activeLe a b = true

instance : DecidableRel ActiveLeR := fun _ _ => inferInstanceAs (Decidable (_ = true))

/-- `PRService.get_active_prs(limit)`: filter by `isActiveAt now` (with `now`
evaluated once per call), order by `activeLe` (SQL ORDER BY determines the
result only up to ties in the full key, so any sort consistent with the
total preorder `activeLe` embeds it), then `.limit(limit)` guarded by the
Python-truthiness test `if limit:` (so `None` and `0` leave the list whole). -/
def get_active_prs (store : List PRBubble) (now : Int) (limit : Option Nat) :
    List PRBubble :=
  let sorted := List.insertionSort ActiveLeR (store.filter (isActiveAt now))
  match limit with
  | none => sorted
  | some l => if l = 0 then sorted else sorted.take l

/-! ## Schema layer: app/schemas/pr_bubble.py

`validate_hex_color` delegates the digit check to Python's `int(v[1:], 16)`,
so the embedding models CPython's base-16 integer literal parser
(`int(s, 16)` for `str` input): optional surrounding whitespace, an optional
sign, an optional `0x`/`0X` prefix (optionally followed by one underscore),
then hexadecimal digits with single underscores allowed between digits.
The model covers ASCII input (CPython additionally accepts Unicode whitespace
and Unicode decimal digits; no 7-character ASCII-`#`-prefixed value is
affected). -/

/-- ASCII hexadecimal digit (`0-9a-fA-F`, the digits accepted by
`int(s, 16)`). -/
def isHexChar (c : Char) : Bool :=
  (48 ≤ c.toNat && c.toNat ≤ 57) || (97 ≤ c.toNat && c.toNat ≤ 102) ||
    (65 ≤ c.toNat && c.toNat ≤ 70)

/-- ASCII whitespace stripped by `int()` around the literal
(space, tab, LF, CR, VT, FF). -/
def isPySpace (c : Char) : Bool :=
  c.toNat = 32 || c.toNat = 9 || c.toNat = 10 || c.toNat = 13 ||
    c.toNat = 11 || c.toNat = 12

/-- After one hexadecimal digit has been read: accept further digits, single
underscores between digits, and trailing whitespace before the end. -/
def hexTailOk : PyStr → Bool
  | [] => true
  | c :: rest =>
    if c = '_' then
      match rest with
      | c2 :: rest2 => isHexChar c2 && hexTailOk rest2
      | [] => false
    else if isHexChar c then hexTailOk rest
    else (c :: rest).all isPySpace

/-- Whether CPython's `int(s, 16)` accepts the string `s` (ASCII scope). -/
def pyIntBase16Accepts (s : PyStr) : Bool :=
  let s1 := s.dropWhile isPySpace
  let s2 := match s1 with
            | c :: r => if c = '+' ∨ c = '-' then r else c :: r
            | [] => []
  let s3 := match s2 with
            | c0 :: c1 :: r =>
              if c0 = '0' ∧ (c1 = 'x' ∨ c1 = 'X') then
                match r with
                | c2 :: r2 => if c2 = '_' then r2 else c2 :: r2
                | [] => []
              else c0 :: c1 :: r
            | s2' => s2'
  match s3 with
  | c :: rest => isHexChar c && hexTailOk rest
  | [] => false

/-- `validate_hex_color` (shared body of `PRBubbleBase.validate_hex_color` and
`PRBubbleUpdate.validate_hex_color`): reject unless the value starts with `#`
and has length 7 and `int(v[1:], 16)` succeeds; on success store `v.upper()`. -/
def validate_hex_color (v : PyStr) : Option PyStr :=
  if ¬ (v.take 1 = ['#']) ∨ v.length ≠ 7 then none
  else if pyIntBase16Accepts (v.drop 1) then some (pyStrUpper v) else none

/-- The pattern the specification states for `tag_color`: exactly 7 characters,
a leading `#`, then six hexadecimal digits (`#[0-9A-Fa-f]{6}`).  Stated from
the specification's words, to be compared with `validate_hex_color`. -/
def specHexColorPattern (v : PyStr) : Bool :=
  v.length = 7 && v.take 1 = ['#'] && (v.drop 1).all isHexChar

/-- The `PRBubbleCreate` input payload (all base fields are required except the
defaulted ones; `priority` and `utm_campaign` are nullable). -/
structure PRBubbleCreate where
  title : PyStr
  description : PyStr
  image_url : PyStr
  link_url : PyStr
  tag_type : TagType
  tag_text : PyStr
  tag_color : PyStr
  start_date : Int
  end_date : Int
  priority : Option Int
  utm_campaign : Option PyStr
  status : PRStatus
deriving DecidableEq

/-- Pydantic validation of a `PRBubbleCreate` payload: the declared
`max_length` bounds, `validate_hex_color` on `tag_color` (storing the
upper-cased value), and `validate_end_date`, which rejects when
`end_date <= start_date` (`start_date` is required, and an aware `datetime` is
always truthy, so the `if start_date and v <= start_date` guard reduces to the
comparison).  Returns the validated payload, `none` on a `ValidationError`. -/
def validateCreate (p : PRBubbleCreate) : Option PRBubbleCreate :=
  if p.title.length ≤ 60 && p.description.length ≤ 200 && p.image_url.length ≤ 500 &&
      p.link_url.length ≤ 500 && p.tag_text.length ≤ 50 && p.tag_color.length ≤ 7 &&
      (p.utm_campaign.getD []).length ≤ 100 then
    match validate_hex_color p.tag_color with
    | none => none
    | some col =>
      if p.end_date ≤ p.start_date then none
      else some { p with tag_color := col }
  else none

/-- The `PRBubbleUpdate` input payload: every field optional, `none` meaning
"not supplied". -/
structure PRBubbleUpdate where
  title : Option PyStr
  description : Option PyStr
  image_url : Option PyStr
  link_url : Option PyStr
  tag_type : Option TagType
  tag_text : Option PyStr
  tag_color : Option PyStr
  start_date : Option Int
  end_date : Option Int
  priority : Option Int
  status : Option PRStatus
  utm_campaign : Option PyStr
deriving DecidableEq

/-- Pydantic validation of a `PRBubbleUpdate` payload: the declared
`max_length` bounds and `validate_hex_color` on a supplied `tag_color`
(`None` is passed through).  `PRBubbleUpdate` declares no validator for
`end_date`, so no cross-field date check is performed. -/
def validateUpdate (p : PRBubbleUpdate) : Option PRBubbleUpdate :=
  if (p.title.getD []).length ≤ 60 && (p.description.getD []).length ≤ 200 &&
      (p.image_url.getD []).length ≤ 500 && (p.link_url.getD []).length ≤ 500 &&
      (p.tag_text.getD []).length ≤ 50 && (p.tag_color.getD []).length ≤ 7 &&
      (p.utm_campaign.getD []).length ≤ 100 then
    match p.tag_color with
    | none => some p
    | some c =>
      match validate_hex_color c with
      | none => none
      | some col => some { p with tag_color := some col }
  else none

/-! ## urllib.parse model (CPython 3.11)

The URL helpers of `app/api/pr.py` are built on `urllib.parse`.  The relevant
stdlib functions are embedded below at the code-point level, byte-faithfully
through UTF-8 for percent-encoding and -decoding. -/

/-- U+FFFD, the replacement character used by `bytes.decode("utf-8", "replace")`. -/
def replacementChar : Char := '�'

/-- UTF-8 encoding of one code point (`str.encode("utf-8")` per character;
Lean `Char` is always a Unicode scalar value, so `errors="strict"` never
raises here). -/
def utf8EncodeChar (c : Char) : List Nat :=
  let n := c.toNat
  if n < 128 then [n]
  else if n < 2048 then [192 + n / 64, 128 + n % 64]
  else if n < 65536 then [224 + n / 4096, 128 + n / 64 % 64, 128 + n % 64]
  else [240 + n / 262144, 128 + n / 4096 % 64, 128 + n / 64 % 64, 128 + n % 64]

/-- UTF-8 continuation byte. -/
def utf8Cont (b : Nat) : Bool := 128 ≤ b && b < 192

/-- Lead-specific constraint on the second byte of a multi-byte UTF-8
sequence (excluding overlong forms, surrogates and values above U+10FFFF,
as CPython's decoder does). -/
def utf8Second (b0 b1 : Nat) : Bool :=
  if b0 = 224 then 160 ≤ b1 && b1 < 192
  else if b0 = 237 then 128 ≤ b1 && b1 < 160
  else if b0 = 240 then 144 ≤ b1 && b1 < 192
  else if b0 = 244 then 128 ≤ b1 && b1 < 144
  else utf8Cont b1

/-- `bytes.decode("utf-8", errors="replace")`: maximal-subpart replacement —
an invalid or truncated sequence yields one U+FFFD for the longest consumed
well-formed prefix, matching CPython's decoder. -/
def utf8DecodeReplace : List Nat → List Char
  | [] => []
  | b0 :: bs =>
    if b0 < 128 then Char.ofNat b0 :: utf8DecodeReplace bs
    else if b0 < 194 then replacementChar :: utf8DecodeReplace bs
    else if b0 < 224 then
      match bs with
      | b1 :: bs1 =>
        if utf8Cont b1 then
          Char.ofNat ((b0 - 192) * 64 + (b1 - 128)) :: utf8DecodeReplace bs1
        else replacementChar :: utf8DecodeReplace (b1 :: bs1)
      | [] => [replacementChar]
    else if b0 < 240 then
      match bs with
      | b1 :: bs1 =>
        if utf8Second b0 b1 then
          match bs1 with
          | b2 :: bs2 =>
            if utf8Cont b2 then
              Char.ofNat ((b0 - 224) * 4096 + (b1 - 128) * 64 + (b2 - 128)) ::
                utf8DecodeReplace bs2
            else replacementChar :: utf8DecodeReplace (b2 :: bs2)
          | [] => [replacementChar]
        else replacementChar :: utf8DecodeReplace (b1 :: bs1)
      | [] => [replacementChar]
    else if b0 < 245 then
      match bs with
      | b1 :: bs1 =>
        if utf8Second b0 b1 then
          match bs1 with
          | b2 :: bs2 =>
            if utf8Cont b2 then
              match bs2 with
              | b3 :: bs3 =>
                if utf8Cont b3 then
                  Char.ofNat ((b0 - 240) * 262144 + (b1 - 128) * 4096 +
                      (b2 - 128) * 64 + (b3 - 128)) :: utf8DecodeReplace bs3
                else replacementChar :: utf8DecodeReplace (b3 :: bs3)
              | [] => [replacementChar]
            else replacementChar :: utf8DecodeReplace (b2 :: bs2)
          | [] => [replacementChar]
        else replacementChar :: utf8DecodeReplace (b1 :: bs1)
      | [] => [replacementChar]
    else replacementChar :: utf8DecodeReplace bs

/-- Hexadecimal value of a character, as accepted by `unquote`'s `%xx`
escapes (both cases). -/
def hexVal (c : Char) : Option Nat :=
  if c.isDigit then some (c.toNat - 48)
  else if 97 ≤ c.toNat ∧ c.toNat ≤ 102 then some (c.toNat - 87)
  else if 65 ≤ c.toNat ∧ c.toNat ≤ 70 then some (c.toNat - 55)
  else none

/-- Upper-case hexadecimal digit, as produced by `quote`'s `%%%02X`. -/
def hexUpperChar (n : Nat) : Char :=
  if n < 10 then Char.ofNat (48 + n) else Char.ofNat (55 + n)

/-- The `%XX` escape of one byte. -/
def percentEncodeByte (b : Nat) : PyStr :=
  ['%', hexUpperChar (b / 16), hexUpperChar (b % 16)]

/-- `urllib.parse`'s `_ALWAYS_SAFE` set: ASCII letters, digits, `_.-~`. -/
def alwaysSafeChar (c : Char) : Bool :=
  (65 ≤ c.toNat && c.toNat ≤ 90) || (97 ≤ c.toNat && c.toNat ≤ 122) ||
    (48 ≤ c.toNat && c.toNat ≤ 57) ||
    c.toNat = 95 || c.toNat = 46 || c.toNat = 45 || c.toNat = 126

/-- `quote(s, safe="")` applied to one character: safe characters pass
through, everything else is `%XX`-escaped byte-wise through UTF-8. -/
def quoteChar (c : Char) : PyStr :=
  if alwaysSafeChar c then [c] else (utf8EncodeChar c).flatMap percentEncodeByte

/-- `quote(s, safe="")`. -/
def quotePy (s : PyStr) : PyStr := s.flatMap quoteChar

/-- `quote(s, safe=" ")` applied to one character (the intermediate step of
`quote_plus` on strings containing a space). -/
def quoteCharKeepSpace (c : Char) : PyStr :=
  if alwaysSafeChar c || c = ' ' then [c]
  else (utf8EncodeChar c).flatMap percentEncodeByte

/-- `quote_plus(s, safe="")`: `quote` as-is when `s` has no space, otherwise
`quote` with space kept safe followed by `.replace(" ", "+")`. -/
def quote_plus (s : PyStr) : PyStr :=
  if ' ' ∈ s then
    (s.flatMap quoteCharKeepSpace).map (fun c => if c = ' ' then '+' else c)
  else quotePy s

/-- The scanner of `unquote`: maximal runs of `%XX` escapes are collected
into a byte accumulator and decoded together with
`bytes.decode("utf-8", "replace")`; a `%` not followed by two hexadecimal
digits stays literal; other characters pass through (an interleaved ASCII
character decodes to itself and breaks any multi-byte sequence in CPython
exactly as flushing the accumulator does). -/
def unquoteAux : PyStr → List Nat → PyStr
  | [], acc => utf8DecodeReplace acc
  | '%' :: c1 :: c2 :: rest2, acc =>
    (match hexVal c1, hexVal c2 with
     | some h1, some h2 => unquoteAux rest2 (acc ++ [16 * h1 + h2])
     | _, _ => utf8DecodeReplace acc ++ '%' :: unquoteAux (c1 :: c2 :: rest2) [])
  | c :: rest, acc => utf8DecodeReplace acc ++ c :: unquoteAux rest []

/-- `unquote(s)` (with the default `utf-8` / `replace` codec arguments, as
`parse_qsl` calls it). -/
def unquotePy (s : PyStr) : PyStr := unquoteAux s []

/-- The `.replace("+", " ")` step `parse_qsl` applies before unquoting. -/
def plusToSpace (s : PyStr) : PyStr := s.map (fun c => if c = '+' then ' ' else c)

/-- `unquote(s.replace("+", " "))`, the per-field decoding of `parse_qsl`. -/
def unquote_plus (s : PyStr) : PyStr := unquotePy (plusToSpace s)

/-- Python `str.split(sep)` for a one-character separator: `n` separators
yield `n + 1` pieces. -/
def pySplitChar (sep : Char) : PyStr → List PyStr
  | [] => [[]]
  | c :: rest =>
    if c = sep then [] :: pySplitChar sep rest
    else (pySplitChar sep rest).modifyHead (fun l => c :: l)

/-- Python `s.split(sep, 1)` for a one-character separator: the part before
the first occurrence, and the part after it when one exists. -/
def pySplitFirst (sep : Char) : PyStr → PyStr × Option PyStr
  | [] => ([], none)
  | c :: rest =>
    if c = sep then ([], some rest)
    else
      let (a, b) := pySplitFirst sep rest
      (c :: a, b)

/-- `parse_qsl(qs, keep_blank_values=True)` (default `&` separator): empty
fields are skipped, a field without `=` keeps a blank value, and names and
values are plus-replaced and unquoted. -/
def parse_qsl (qs : PyStr) : List (PyStr × PyStr) :=
  if qs = [] then []
  else
    (pySplitChar '&' qs).flatMap fun name_value =>
      if name_value = [] then []
      else
        match pySplitFirst '=' name_value with
        | (name, some value) => [(unquote_plus name, unquote_plus value)]
        | (name, none) => [(unquote_plus name, [])]

/-- Python `sep.join(pieces)` for a one-character separator. -/
def pyJoinChar (sep : Char) : List PyStr → PyStr
  | [] => []
  | [p] => p
  | p :: ps => p ++ sep :: pyJoinChar sep ps

/-- `urlencode(pairs, doseq=True)` on string pairs: each key and value goes
through `quote_plus`, joined as `k=v` with `&`. -/
def urlencode (pairs : List (PyStr × PyStr)) : PyStr :=
  pyJoinChar '&' (pairs.map fun kv => quote_plus kv.1 ++ '=' :: quote_plus kv.2)

/-! ### urlsplit / urlunsplit -/

/-- The result of `urlsplit`. -/
structure SplitResult where
  scheme : PyStr
  netloc : PyStr
  path : PyStr
  query : PyStr
  fragment : PyStr
deriving DecidableEq

/-- `scheme_chars`: ASCII letters, digits, `+-.`. -/
def schemeChar (c : Char) : Bool :=
  (65 ≤ c.toNat && c.toNat ≤ 90) || (97 ≤ c.toNat && c.toNat ≤ 122) ||
    (48 ≤ c.toNat && c.toNat ≤ 57) ||
    c.toNat = 43 || c.toNat = 45 || c.toNat = 46

/-- `url.lstrip(_WHATWG_C0_CONTROL_OR_SPACE)`: drop leading code points
up to and including U+0020. -/
def lstripC0Space (s : PyStr) : PyStr := s.dropWhile (fun c => c.toNat ≤ 32)

/-- Removal of `_UNSAFE_URL_BYTES_TO_REMOVE` (tab, CR, LF) everywhere. -/
def removeTabsCrLf (s : PyStr) : PyStr :=
  s.filter (fun c => ¬ (c = '\t' ∨ c = '\r' ∨ c = '\n'))

/-- A character `_splitnetloc` keeps inside the netloc (not `/`, `?`, `#`). -/
def netlocChar (c : Char) : Bool := ¬ (c = '/' ∨ c = '?' ∨ c = '#')

/-- Decimal value of a digit string. -/
def digitsVal (s : PyStr) : Nat := s.foldl (fun a c => a * 10 + (c.toNat - 48)) 0

/-- One octet of `ipaddress.IPv4Address`: one to three ASCII digits, no
leading zero, at most 255. -/
def ipv4OctetValid (s : PyStr) : Bool :=
  s ≠ [] && s.length ≤ 3 && s.all Char.isDigit &&
    !(s.length > 1 && s.take 1 = ['0']) && digitsVal s ≤ 255

/-- `ipaddress.IPv4Address` validity: four dot-separated octets. -/
def ipv4Valid (s : PyStr) : Bool :=
  match pySplitChar '.' s with
  | [a, b, c, d] => ipv4OctetValid a && ipv4OctetValid b && ipv4OctetValid c && ipv4OctetValid d
  | _ => false

/-- One hextet of `ipaddress.IPv6Address`: one to four hexadecimal digits. -/
def hextetValid (s : PyStr) : Bool := s ≠ [] && s.length ≤ 4 && s.all isHexChar

/-- `ipaddress.IPv6Address._ip_int_from_string` validity: colon-separated
hextets, a single optional `::` compression, an optional trailing embedded
IPv4 address. -/
def ipv6AddrValid (s : PyStr) : Bool :=
  s ≠ [] &&
  (let parts0 := pySplitChar ':' s
   decide (3 ≤ parts0.length) &&
   (let lastHasDot := '.' ∈ parts0.getLastD []
    if lastHasDot && ¬ ipv4Valid (parts0.getLastD []) then false
    else
      let parts := if lastHasDot then parts0.dropLast ++ [['0'], ['0']] else parts0
      let n := parts.length
      decide (n ≤ 9) &&
      (let mids := (parts.drop 1).dropLast
       let emptyMids := mids.countP (· = [])
       if emptyMids > 1 then false
       else if emptyMids = 1 then
         let skipIdx := 1 + mids.findIdx (· = [])
         let headEmpty := parts.headD ['x'] = []
         let tailEmpty := parts.getLastD ['x'] = []
         let partsHi := skipIdx
         let partsLo := n - skipIdx - 1
         (!headEmpty || decide (skipIdx = 1)) &&
         (!tailEmpty || decide (partsLo = 1)) &&
         (let hi := if headEmpty then partsHi - 1 else partsHi
          let lo := if tailEmpty then partsLo - 1 else partsLo
          decide (hi + lo ≤ 7) &&
          (parts.take hi).all hextetValid &&
          (parts.drop (n - lo)).all hextetValid)
       else
         decide (n = 8) && !(parts.headD [] = []) && !(parts.getLastD [] = []) &&
           parts.all hextetValid)))

/-- `ipaddress.IPv6Address` validity including an optional `%scope_id`
suffix (non-empty, without a further `%`). -/
def ipv6Valid (s : PyStr) : Bool :=
  match pySplitFirst '%' s with
  | (addr, none) => ipv6AddrValid addr
  | (addr, some scope) => scope ≠ [] && '%' ∉ scope && ipv6AddrValid addr

/-- `_check_bracketed_host`: an IPvFuture literal `v<hex>+.<anything>+`, or a
valid IPv6 address (a plain IPv4 address in brackets is rejected). -/
def bracketHostValid (s : PyStr) : Bool :=
  if s.take 1 = ['v'] then
    let afterV := s.drop 1
    let hexRun := afterV.takeWhile isHexChar
    let rest := afterV.dropWhile isHexChar
    hexRun ≠ [] &&
    (match rest with
     | '.' :: tail => tail ≠ [] && tail.all (· ≠ '\n')
     | _ => false)
  else ipv6Valid s

/-- `netloc.partition("[")[2].partition("]")[0]`: the text between the first
`[` and the following first `]`. -/
def bracketedHost (netloc : PyStr) : PyStr :=
  match pySplitFirst '[' netloc with
  | (_, none) => []
  | (_, some after) => (pySplitFirst ']' after).1

/-- The fragment/query splitting tail of `urlsplit` (applied after scheme and
netloc extraction): split at the first `#` when one exists, then at the first
`?` when one exists. -/
def splitRest (scheme netloc rest : PyStr) : SplitResult :=
  let pathq := rest.takeWhile (· ≠ '#')
  let fragment := if '#' ∈ rest then (rest.dropWhile (· ≠ '#')).drop 1 else []
  let path := pathq.takeWhile (· ≠ '?')
  let query := if '?' ∈ pathq then (pathq.dropWhile (· ≠ '?')).drop 1 else []
  ⟨scheme, netloc, path, query, fragment⟩

/-- `urlsplit(url)` (CPython 3.11, default arguments): WHATWG lstrip and
tab/CR/LF removal, scheme extraction (lower-cased when the part before the
first `:` is a non-empty run of scheme characters starting with an ASCII
letter), `//`-prefixed netloc extraction with the bracket checks, then
fragment and query splitting.  `none` models the `ValueError`s raised for
mismatched brackets or an invalid bracketed host.  (The NFKC normalization
check `_checknetloc` performs on non-ASCII netlocs is not modelled; it never
fires on ASCII data.)

`urlsplitTail` is what `urlsplit` does after the scheme has been removed:
`//`-prefixed netloc extraction via `_splitnetloc` with the bracket checks
(`none` for the raised `ValueError`s), then fragment and query splitting. -/
def urlsplitTail (scheme rest : PyStr) : Option SplitResult :=
  if rest.take 2 = ['/', '/'] then
    let netloc := (rest.drop 2).takeWhile netlocChar
    let rest2 := (rest.drop 2).dropWhile netlocChar
    if ('[' ∈ netloc ∧ ']' ∉ netloc) ∨ (']' ∈ netloc ∧ '[' ∉ netloc) then none
    else if '[' ∈ netloc ∧ ']' ∈ netloc then
      if bracketHostValid (bracketedHost netloc) then some (splitRest scheme netloc rest2)
      else none
    else some (splitRest scheme netloc rest2)
  else some (splitRest scheme [] rest)

/-- `urlsplit` proper: clean the input, extract the scheme, hand the
remainder to `urlsplitTail`. -/
def urlsplitPy (url0 : PyStr) : Option SplitResult :=
  let url1 := removeTabsCrLf (lstripC0Space url0)
  let pre := url1.takeWhile (· ≠ ':')
  if pre.length < url1.length ∧ pre ≠ [] ∧ (pre.headD ' ').isAlpha ∧
      pre.all schemeChar then
    urlsplitTail (pre.map asciiLowerChar) (url1.drop (pre.length + 1))
  else urlsplitTail [] url1

/-- The schemes of `urllib.parse.uses_netloc`. -/
def usesNetloc : List PyStr :=
  ["", "ftp", "http", "gopher", "nntp", "telnet", "imap", "wais", "file", "mms",
   "https", "shttp", "snews", "prospero", "rtsp", "rtsps", "rtspu", "rsync",
   "svn", "svn+ssh", "sftp", "nfs", "git", "git+ssh", "ws", "wss"].map String.toList

/-- `urlunsplit(components)` (CPython 3.11), stage one: the value of `url`
after the netloc branch (path, possibly `//`-prefixed with the netloc). -/
def urlunsplitBase (p : SplitResult) : PyStr :=
  if p.netloc ≠ [] ∨ (p.scheme ≠ [] ∧ p.scheme ∈ usesNetloc ∧ p.path.take 2 ≠ ['/', '/']) then
    '/' :: '/' :: (p.netloc ++
      (if p.path ≠ [] ∧ p.path.take 1 ≠ ['/'] then '/' :: p.path else p.path))
  else p.path

/-- `urlunsplit`, stage two: the value of `url` after the scheme branch. -/
def urlunsplitPre (p : SplitResult) : PyStr :=
  if p.scheme ≠ [] then p.scheme ++ ':' :: urlunsplitBase p else urlunsplitBase p

/-- `urlunsplit(components)` (CPython 3.11): `urlunsplitPre` followed by the
query and fragment branches. -/
def urlunsplitPy (p : SplitResult) : PyStr :=
  let url2 := urlunsplitPre p
  let url3 := if p.query ≠ [] then url2 ++ '?' :: p.query else url2
  if p.fragment ≠ [] then url3 ++ '#' :: p.fragment else url3

/-! ## app/api/pr.py -/

/-- `is_valid_redirect_url`: only `http`/`https` schemes with a non-empty
netloc are acceptable; a parse error (`urlsplit` raising) is caught and
rejected. -/
def is_valid_redirect_url (url : PyStr) : Bool :=
  match urlsplitPy url with
  | none => false
  | some p =>
    if ¬ (p.scheme = "http".toList ∨ p.scheme = "https".toList) then false
    else if p.netloc = [] then false
    else true

/-- The four UTM keys stripped by `build_redirect_url_with_utm`. -/
def utmKeys : List PyStr :=
  ["utm_source", "utm_medium", "utm_campaign", "utm_content"].map String.toList

/-- `build_redirect_url_with_utm(base_url, utm_campaign, utm_content)`:
split the URL, drop existing query pairs with a UTM key, append the four
fixed UTM pairs, re-encode the query and unsplit.  `none` models `urlsplit`
raising. -/
def build_redirect_url_with_utm (base_url utm_campaign utm_content : PyStr) :
    Option PyStr :=
  (urlsplitPy base_url).map fun parts =>
    let query_pairs := (parse_qsl parts.query).filter fun kv => !(utmKeys.contains kv.1)
    let query_pairs2 := query_pairs ++
      [("utm_source".toList, "line".toList),
       ("utm_medium".toList, "pr_bubble".toList),
       ("utm_campaign".toList, utm_campaign),
       ("utm_content".toList, utm_content)]
    urlunsplitPy { parts with query := urlencode query_pairs2 }

/-- The query-pair list `build_redirect_url_with_utm` re-encodes, as a
function of the parsed query and the two campaign/content arguments: the
parsed pairs whose key is not a UTM key, in their original order, followed by
the four fixed UTM pairs. -/
def utmNewPairs (query utm_campaign utm_content : PyStr) : List (PyStr × PyStr) :=
  ((parse_qsl query).filter fun kv => !(utmKeys.contains kv.1)) ++
    [("utm_source".toList, "line".toList),
     ("utm_medium".toList, "pr_bubble".toList),
     ("utm_campaign".toList, utm_campaign),
     ("utm_content".toList, utm_content)]

/-- Python `x or y` on an optional string: the stored value when it is truthy
(present and non-empty), the fallback otherwise. -/
def pyOrStr (o : Option PyStr) (d : PyStr) : PyStr :=
  match o with
  | some s => if s = [] then d else s
  | none => d

/-- Outcome of the `redirect_pr` endpoint. -/
inductive RedirectResult where
  | notFound
  | invalidTarget
  | parseFailure
  | redirect (url : PyStr)
deriving DecidableEq

/-- The `redirect_pr` endpoint: look the promotion up (404 when absent),
validate its `link_url` (400 `invalidTarget` when rejected, nothing mutated),
record a `"click"` track event, then 302-redirect to the UTM-built URL with
`utm_campaign = pr.utm_campaign or f"pr_{pr_id}"` and `utm_content` the
formatted current UTC time (a parameter here).  The `parseFailure` branch is
dead code: validation succeeding implies `urlsplit` succeeds (see the C3
theorem). -/
def redirect_pr (store : List PRBubble) (pr_id : PyStr) (utm_content : PyStr) :
    RedirectResult × List PRBubble :=
  match get_pr_by_id store pr_id with
  | none => (RedirectResult.notFound, store)
  | some pr =>
    if ¬ is_valid_redirect_url pr.link_url then (RedirectResult.invalidTarget, store)
    else
      let store2 := (track_pr store pr_id "click".toList).2
      let utm_campaign := pyOrStr pr.utm_campaign ("pr_".toList ++ pr_id)
      match build_redirect_url_with_utm pr.link_url utm_campaign utm_content with
      | some r => (RedirectResult.redirect r, store2)
      | none => (RedirectResult.parseFailure, store2)

/-! ## Characterization helpers and concrete fixtures

`quotePlusChar` and `unquoteReadyChar` are per-character characterizations of
`quote_plus` and of `parse_qsl`'s plus-replacement composed with it; they are
related to the definitions above by lemmas below.  `quoteOutChar` bounds the
character set of `quote_plus` output.  The fixture records are concrete rows
used by counterexamples and witnesses. -/

/-- Per-character form of `quote_plus`. -/
def quotePlusChar (c : Char) : PyStr :=
  if alwaysSafeChar c then [c]
  else if c = ' ' then ['+']
  else (utf8EncodeChar c).flatMap percentEncodeByte

/-- Per-character form of `plusToSpace ∘ quote_plus`. -/
def unquoteReadyChar (c : Char) : PyStr :=
  if alwaysSafeChar c then [c]
  else if c = ' ' then [' ']
  else (utf8EncodeChar c).flatMap percentEncodeByte

/-- The characters that can occur in `quote_plus` output: safe characters,
`+`, `%` and upper-case hexadecimal digits. -/
def quoteOutChar (c : Char) : Bool :=
  alwaysSafeChar c || c = '+' || c = '%' ||
    (48 ≤ c.toNat && c.toNat ≤ 57) || (65 ≤ c.toNat && c.toNat ≤ 70)

/-- A concrete active row used by fixtures. -/
def basePR : PRBubble :=
  { id := "base".toList
    title := "t".toList
    description := []
    image_url := []
    link_url := "https://a.b/p".toList
    tag_type := TagType.gizmart
    tag_text := []
    tag_color := "#FF1BE8".toList
    start_date := 0
    end_date := 200
    priority := none
    status := PRStatus.active
    utm_campaign := none
    view_count := 0
    click_count := 0
    created_at := 0
    updated_at := 0 }

/-- Fixture rows for the active-list ordering example: priorities
`[null, 2, 1, null]` with strictly increasing creation times. -/
def exA : PRBubble := { basePR with id := "a".toList, priority := none, created_at := 1 }

/-- See `exA`. -/
def exB : PRBubble := { basePR with id := "b".toList, priority := some 2, created_at := 2 }

/-- See `exA`. -/
def exC : PRBubble := { basePR with id := "c".toList, priority := some 1, created_at := 3 }

/-- See `exA`. -/
def exD : PRBubble := { basePR with id := "d".toList, priority := none, created_at := 4 }

/-- An update payload supplying only the two dates, with
`end_date <= start_date`. -/
def updBadDates : PRBubbleUpdate :=
  { title := none, description := none, image_url := none, link_url := none,
    tag_type := none, tag_text := none, tag_color := none, start_date := some 10,
    end_date := some 5, priority := none, status := none, utm_campaign := none }

/-- A create payload with `end_date <= start_date` and valid other fields. -/
def createBadDates : PRBubbleCreate :=
  { title := "t".toList, description := [], image_url := [], link_url := [],
    tag_type := TagType.gizmart, tag_text := [], tag_color := "#FF1BE8".toList,
    start_date := 10, end_date := 5, priority := none, utm_campaign := none,
    status := PRStatus.draft }

/-! # Theorems -/

/-- Characters are determined by their code points. -/
theorem char_eq_iff_toNat {c d : Char} : c = d ↔ c.toNat = d.toNat := by
  constructor
  · intro h; rw [h]
  · intro h; rw [← Char.ofNat_toNat c, h, Char.ofNat_toNat]

/-- `Char.ofNat` on a valid code point has that code point. -/
theorem toNat_ofNat_valid {n : Nat} (h : n.isValidChar) : (Char.ofNat n).toNat = n := by
  simp [Char.ofNat, h, Char.ofNatAux, Char.toNat, UInt32.toNat, BitVec.toNat_ofNatLt]

/-- The copy marker has five characters. -/
theorem copySuffix_length : copySuffix.length = 5 := by decide

/-- `duplicateTitle` in closed form: the source title is truncated to 35
characters (when longer), the marker is appended, and the final 40-clamp
never fires. -/
theorem duplicateTitle_eq (t : PyStr) :
    duplicateTitle t = (if 35 < t.length then t.take 35 else t) ++ copySuffix := by
  unfold duplicateTitle
  simp only [gt_iff_lt]
  by_cases h : 35 < t.length
  · simp only [if_pos h]
    have hl : (List.take 35 t ++ copySuffix).length = 40 := by
      rw [List.length_append, List.length_take, copySuffix_length]; omega
    rw [if_neg (by omega)]
  · simp only [if_neg h]
    have hl : (t ++ copySuffix).length ≤ 40 := by
      rw [List.length_append, copySuffix_length]; omega
    rw [if_neg (by omega)]

/-- C5 counterexample: duplicating a 38-character title yields
`title[:35] ++ marker`, which differs from the claim's
truncate-after-append form `(title ++ marker)[:40]`. -/
theorem c5_counterexample :
    (duplicate_pr [{ basePR with title := List.replicate 38 'a' }]
        "base".toList "new".toList 9).map PRBubble.title =
      some (List.replicate 35 'a' ++ copySuffix) ∧
    List.replicate 35 'a' ++ copySuffix ≠
      (List.replicate 38 'a' ++ copySuffix).take 40 := by
  constructor
  · decide
  · decide

/-- C5 (amended): `duplicate_pr` forms the new title by truncating the source
title to its first 35 characters when it is longer than 35 (otherwise taking
it whole) and then appending the localized marker; the final 40-character
clamp never fires. -/
theorem c5_amended (store : List PRBubble) (pr_id new_id : PyStr) (now : Int)
    (pr : PRBubble) (h : get_pr_by_id store pr_id = some pr) :
    ∃ d, duplicate_pr store pr_id new_id now = some d ∧
      d.title = (if 35 < pr.title.length then pr.title.take 35 else pr.title) ++
        copySuffix := by
  unfold duplicate_pr
  rw [h]
  exact ⟨_, rfl, duplicateTitle_eq pr.title⟩

/-- C5 witness. -/
theorem c5_witness :
    ∃ d, duplicate_pr [basePR] "base".toList "new".toList 9 = some d ∧
      d.title = (if 35 < basePR.title.length then basePR.title.take 35
        else basePR.title) ++ copySuffix :=
  c5_amended [basePR] "base".toList "new".toList 9 basePR (by decide)

/-- C6: duplicating a 38-character title gives a 40-character title ending in
the complete localized marker, and no duplicated title ever exceeds 40
characters. -/
theorem c6_duplicate_title (t : PyStr) :
    (t.length = 38 →
      (duplicateTitle t).length = 40 ∧ copySuffix.IsSuffix (duplicateTitle t)) ∧
    (duplicateTitle t).length ≤ 40 := by
  rw [duplicateTitle_eq]
  constructor
  · intro h38
    have h : 35 < t.length := by omega
    rw [if_pos h]
    constructor
    · rw [List.length_append, List.length_take, copySuffix_length]; omega
    · exact ⟨t.take 35, rfl⟩
  · by_cases h : 35 < t.length
    · rw [if_pos h, List.length_append, List.length_take, copySuffix_length]; omega
    · rw [if_neg h, List.length_append, copySuffix_length]; omega

/-- C6 witness. -/
theorem c6_witness :
    (duplicateTitle (List.replicate 38 'a')).length = 40 ∧
      copySuffix.IsSuffix (duplicateTitle (List.replicate 38 'a')) :=
  (c6_duplicate_title (List.replicate 38 'a')).1 (by decide)

/-- A run of hexadecimal digits is accepted by the post-first-digit state of
the `int(s, 16)` grammar. -/
theorem hexTailOk_of_all_hex (s : PyStr) (h : s.all isHexChar = true) :
    hexTailOk s = true := by
  induction s with
  | nil => rfl
  | cons c rest ih =>
    rw [List.all_cons, Bool.and_eq_true] at h
    have hne : c ≠ '_' := by
      rintro rfl
      exact absurd h.1 (by decide)
    rw [hexTailOk.eq_def]
    simp only [if_neg hne, if_pos h.1]
    exact ih h.2

/-- A non-empty all-hexadecimal string is accepted by `int(s, 16)`. -/
theorem pyIntBase16_of_hex (s : PyStr) (hne : s ≠ []) (h : s.all isHexChar = true) :
    pyIntBase16Accepts s = true := by
  obtain ⟨c, rest, rfl⟩ := List.exists_cons_of_ne_nil hne
  rw [List.all_cons, Bool.and_eq_true] at h
  have hcn := h.1
  simp only [isHexChar, Bool.or_eq_true, Bool.and_eq_true, decide_eq_true_eq] at hcn
  have hsp : isPySpace c = false := by
    cases hb : isPySpace c
    · rfl
    · exfalso
      simp only [isPySpace, Bool.or_eq_true, decide_eq_true_eq] at hb
      omega
  have hsign : ¬(c = '+' ∨ c = '-') := by
    rintro (rfl | rfl) <;> exact absurd h.1 (by decide)
  unfold pyIntBase16Accepts
  rw [List.dropWhile_cons, hsp]
  simp only [Bool.false_eq_true, if_false, if_neg hsign]
  cases rest with
  | nil => simp [h.1, hexTailOk]
  | cons c1 rest1 =>
    have h1 : (c1 :: rest1).all isHexChar = true := h.2
    rw [List.all_cons, Bool.and_eq_true] at h1
    have hpre : ¬(c = '0' ∧ (c1 = 'x' ∨ c1 = 'X')) := by
      rintro ⟨rfl, rfl | rfl⟩ <;> exact absurd h1.1 (by decide)
    simp only [if_neg hpre, h.1, Bool.true_and]
    exact hexTailOk_of_all_hex (c1 :: rest1) h.2

/-- C7 counterexample: `"#0x1234"` does not match `#[0-9A-Fa-f]{6}` but the
validator accepts it (storing `"#0X1234"`), because `int(v[1:], 16)` accepts a
`0x` prefix. -/
theorem c7_counterexample :
    validate_hex_color "#0x1234".toList = some "#0X1234".toList ∧
    specHexColorPattern "#0x1234".toList = false := by
  constructor
  · decide
  · decide

/-- C7 (amended): every string matching `#[0-9A-Fa-f]{6}` is accepted and
stored upper-cased, but acceptance is exactly "starts with `#`, length 7, and
`int(v[1:], 16)` succeeds" — which also admits sign, whitespace, `0x` prefix
and underscore forms; every accepted value is stored upper-cased. -/
theorem c7_hex_color (v : PyStr) :
    (specHexColorPattern v = true → validate_hex_color v = some (pyStrUpper v)) ∧
    ((validate_hex_color v).isSome = true ↔
      v.take 1 = ['#'] ∧ v.length = 7 ∧ pyIntBase16Accepts (v.drop 1) = true) ∧
    (∀ w, validate_hex_color v = some w → w = pyStrUpper v) := by
  refine ⟨?_, ?_, ?_⟩
  · intro hp
    simp only [specHexColorPattern, Bool.and_eq_true, decide_eq_true_eq] at hp
    obtain ⟨⟨hlen, hhash⟩, hhex⟩ := hp
    have hne : v.drop 1 ≠ [] := by
      intro he
      have := congrArg List.length he
      simp only [List.length_drop, List.length_nil] at this
      omega
    unfold validate_hex_color
    rw [if_neg (by simp [hhash, hlen]), if_pos (pyIntBase16_of_hex _ hne hhex)]
  · unfold validate_hex_color
    by_cases h1 : v.take 1 = ['#'] <;> by_cases h2 : v.length = 7 <;>
      by_cases h3 : pyIntBase16Accepts (v.drop 1) = true <;>
      simp [h1, h2, h3]
  · intro w hw
    unfold validate_hex_color at hw
    by_cases h1 : ¬v.take 1 = ['#'] ∨ ¬v.length = 7
    · rw [if_pos h1] at hw
      exact absurd hw (by simp)
    · rw [if_neg h1] at hw
      by_cases h3 : pyIntBase16Accepts (v.drop 1) = true
      · rw [if_pos h3] at hw
        exact (Option.some_inj.mp hw).symm
      · rw [if_neg h3] at hw
        exact absurd hw (by simp)

/-- C7 witness. -/
theorem c7_witness : validate_hex_color "#ff1be8".toList =
    some (pyStrUpper "#ff1be8".toList) :=
  (c7_hex_color "#ff1be8".toList).1 (by decide)

/-- C8 counterexample: an update payload supplying both dates with
`end_date <= start_date` passes update validation unchanged — `PRBubbleUpdate`
declares no cross-field date check. -/
theorem c8_counterexample :
    validateUpdate updBadDates = some updBadDates ∧
    updBadDates.start_date = some 10 ∧ updBadDates.end_date = some 5 ∧
    (5 : Int) ≤ 10 := by
  refine ⟨by decide, by decide, by decide, by decide⟩

/-- C8 (amended): create validation rejects every payload with
`end_date <= start_date`; update validation performs no cross-field date
check — its outcome is unchanged under any replacement of the two date
fields. -/
theorem c8_date_validation :
    (∀ p : PRBubbleCreate, p.end_date ≤ p.start_date → validateCreate p = none) ∧
    (∀ (p : PRBubbleUpdate) (s e : Option Int),
      (validateUpdate { p with start_date := s, end_date := e }).isSome =
        (validateUpdate p).isSome) := by
  constructor
  · intro p hle
    unfold validateCreate
    split
    · split
      · rfl
      · simp [hle]
    · rfl
  · intro p s e
    unfold validateUpdate
    dsimp only
    split
    · cases p.tag_color with
      | none => rfl
      | some c =>
        dsimp only
        cases validate_hex_color c <;> rfl
    · rfl

/-- C8 witness. -/
theorem c8_witness : validateCreate createBadDates = none :=
  c8_date_validation.1 createBadDates (by decide)

/-- When `get_pr_by_id` finds a row, the store splits as
`pre ++ pr :: suf` with no earlier row of that id, and `updateFirst`
rewrites exactly that row. -/
theorem get_pr_decomp (store : List PRBubble) (pr_id : PyStr) (pr : PRBubble)
    (f : PRBubble → PRBubble) :
    get_pr_by_id store pr_id = some pr →
    ∃ pre suf, store = pre ++ pr :: suf ∧ (∀ q ∈ pre, q.id ≠ pr_id) ∧
      pr.id = pr_id ∧ updateFirst store pr_id f = pre ++ f pr :: suf := by
  induction store with
  | nil => intro h; simp [get_pr_by_id] at h
  | cons p ps ih =>
    intro h
    by_cases hp : (p.id == pr_id) = true
    · have hpr : pr = p := by
        simp only [get_pr_by_id, List.find?_cons, hp] at h
        exact (Option.some_inj.mp h).symm
      subst hpr
      refine ⟨[], ps, rfl, by simp, by simpa using hp, ?_⟩
      rw [updateFirst, if_pos hp]
      rfl
    · have h' : get_pr_by_id ps pr_id = some pr := by
        simpa only [get_pr_by_id, List.find?_cons, hp] using h
      obtain ⟨pre, suf, e1, e2, e3, e4⟩ := ih h'
      refine ⟨p :: pre, suf, by rw [List.cons_append, ← e1], ?_, e3, ?_⟩
      · intro q hq
        rcases List.mem_cons.mp hq with rfl | hq'
        · simpa using hp
        · exact e2 q hq'
      · rw [updateFirst, if_neg hp, e4]
        rfl

/-- C9: `track_pr` succeeds exactly when the promotion exists and the tag is
`"view"` or `"click"`; `"view"` increments only `view_count`, `"click"`
increments only `click_count`, every other row is untouched, and any other
tag (or a missing promotion) returns failure without any mutation. -/
theorem c9_track (store : List PRBubble) (pr_id t : PyStr) :
    ((track_pr store pr_id t).1 = true ↔
      (get_pr_by_id store pr_id).isSome = true ∧
        (t = "view".toList ∨ t = "click".toList)) ∧
    (t ≠ "view".toList → t ≠ "click".toList → (track_pr store pr_id t).2 = store) ∧
    (get_pr_by_id store pr_id = none → (track_pr store pr_id t).2 = store) ∧
    (∀ pr, get_pr_by_id store pr_id = some pr →
      (t = "view".toList →
        ∃ pre suf, store = pre ++ pr :: suf ∧ (∀ q ∈ pre, q.id ≠ pr_id) ∧
          track_pr store pr_id t = (true, pre ++ bumpView pr :: suf)) ∧
      (t = "click".toList →
        ∃ pre suf, store = pre ++ pr :: suf ∧ (∀ q ∈ pre, q.id ≠ pr_id) ∧
          track_pr store pr_id t = (true, pre ++ bumpClick pr :: suf)) ∧
      (bumpView pr).view_count = pr.view_count + 1 ∧
      (bumpView pr).click_count = pr.click_count ∧
      (bumpClick pr).click_count = pr.click_count + 1 ∧
      (bumpClick pr).view_count = pr.view_count) := by
  cases hfind : get_pr_by_id store pr_id with
  | none =>
    refine ⟨by simp [track_pr, hfind], ?_, ?_, ?_⟩
    · intro _ _; simp [track_pr, hfind]
    · intro _; simp [track_pr, hfind]
    · intro pr hpr; exact absurd hpr (by simp)
  | some pr =>
    by_cases hv : t = "view".toList
    · subst hv
      obtain ⟨pre, suf, e1, e2, _, e4⟩ :=
        get_pr_decomp store pr_id pr bumpView hfind
      refine ⟨by simp [track_pr, hfind], ?_, ?_, ?_⟩
      · intro hnv _; exact absurd rfl hnv
      · intro hnone; exact absurd hnone (by simp)
      · intro pr' hpr'
        have : pr' = pr := (Option.some_inj.mp hpr').symm
        subst this
        refine ⟨?_, ?_, rfl, rfl, rfl, rfl⟩
        · intro _
          exact ⟨pre, suf, e1, e2, by simp [track_pr, hfind, e4]⟩
        · intro hcl; exact absurd hcl.symm (by decide)
    · by_cases hc : t = "click".toList
      · subst hc
        obtain ⟨pre, suf, e1, e2, _, e4⟩ :=
          get_pr_decomp store pr_id pr bumpClick hfind
        refine ⟨?_, ?_, ?_, ?_⟩
        · simp [track_pr, hfind, hv]
        · intro _ hnc; exact absurd rfl hnc
        · intro hnone; exact absurd hnone (by simp)
        · intro pr' hpr'
          have : pr' = pr := (Option.some_inj.mp hpr').symm
          subst this
          refine ⟨?_, ?_, rfl, rfl, rfl, rfl⟩
          · intro hvw; exact absurd hvw.symm (by decide)
          · intro _
            exact ⟨pre, suf, e1, e2, by simp [track_pr, hfind, hv, e4]⟩
      · refine ⟨?_, ?_, ?_, ?_⟩
        · simp only [track_pr, hfind, if_neg hv, if_neg hc]
          exact iff_of_false (by simp) (by rintro ⟨_, h | h⟩; exacts [hv h, hc h])
        · intro _ _
          simp only [track_pr, hfind, if_neg hv, if_neg hc]
        · intro hnone; exact absurd hnone (by simp)
        · intro pr' hpr'
          refine ⟨?_, ?_, rfl, rfl, rfl, rfl⟩
          · intro hvw; exact absurd hvw hv
          · intro hcl; exact absurd hcl hc

/-- C9 witness. -/
theorem c9_witness : (track_pr [basePR] "base".toList "like".toList).2 = [basePR] :=
  (c9_track [basePR] "base".toList "like".toList).2.1 (by decide) (by decide)

/-- `activeLe` is total. -/
theorem activeLe_total (a b : PRBubble) :
    activeLe a b = true ∨ activeLe b a = true := by
  unfold activeLe
  cases ha : a.priority <;> cases hb : b.priority <;> dsimp only <;>
    simp only [decide_eq_true_eq] <;>
    first
    | omega
    | simp

/-- `activeLe` is transitive. -/
theorem activeLe_trans (a b c : PRBubble) (hab : activeLe a b = true)
    (hbc : activeLe b c = true) : activeLe a c = true := by
  unfold activeLe at hab hbc ⊢
  cases ha : a.priority <;> cases hb : b.priority <;> cases hc : c.priority <;>
    simp only [ha, hb, hc, decide_eq_true_eq, Bool.false_eq_true] at hab hbc ⊢ <;>
    first
    | rfl
    | omega

instance : IsTotal PRBubble ActiveLeR := ⟨activeLe_total⟩

instance : IsTrans PRBubble ActiveLeR := ⟨activeLe_trans⟩

/-- C4: the active list is exactly the ACTIVE rows whose date window contains
`now` (a single instant per call), ordered by priority ascending with nulls
last and ties broken by `created_at` descending; a limit in `[1, 50]`
truncates the ordered list; and priorities `[null, 2, 1, null]` with
increasing creation times come back as `[1, 2, null(newer), null(older)]`. -/
theorem c4_active_list :
    (∀ store now,
      (get_active_prs store now none).Perm (store.filter (isActiveAt now)) ∧
      List.Sorted ActiveLeR (get_active_prs store now none)) ∧
    (∀ store now l, 1 ≤ l → l ≤ 50 →
      get_active_prs store now (some l) = (get_active_prs store now none).take l) ∧
    get_active_prs [exA, exB, exC, exD] 100 none = [exC, exB, exD, exA] := by
  refine ⟨?_, ?_, ?_⟩
  · intro store now
    exact ⟨List.perm_insertionSort _ _, List.sorted_insertionSort _ _⟩
  · intro store now l h1 _
    unfold get_active_prs
    dsimp only
    rw [if_neg (by omega)]
  · decide

/-- C4 witness. -/
theorem c4_witness :
    get_active_prs [exA, exB, exC, exD] 100 (some 2) =
      (get_active_prs [exA, exB, exC, exD] 100 none).take 2 :=
  c4_active_list.2.1 [exA, exB, exC, exD] 100 2 (by decide) (by decide)

/-- A URL accepted by `is_valid_redirect_url` parses. -/
theorem urlsplit_of_valid (u : PyStr) (h : is_valid_redirect_url u = true) :
    ∃ p, urlsplitPy u = some p := by
  unfold is_valid_redirect_url at h
  cases hu : urlsplitPy u with
  | none => rw [hu] at h; exact absurd h (by simp)
  | some p => exact ⟨p, rfl⟩

/-- `track_pr` with the `"click"` tag on an existing promotion bumps its
click counter via `updateFirst`. -/
theorem track_click_eq (store : List PRBubble) (pr_id : PyStr) (pr : PRBubble)
    (hpr : get_pr_by_id store pr_id = some pr) :
    track_pr store pr_id "click".toList =
      (true, updateFirst store pr_id bumpClick) := by
  unfold track_pr
  rw [hpr, if_neg (by decide), if_pos rfl]

/-- The success path of `redirect_pr`: promotion found, URL valid, so the
click is tracked and the caller is told to redirect to the built URL. -/
theorem redirect_pr_success (store : List PRBubble) (pr_id utm_content : PyStr)
    (pr : PRBubble) (r : PyStr) (hpr : get_pr_by_id store pr_id = some pr)
    (hval : is_valid_redirect_url pr.link_url = true)
    (hr : build_redirect_url_with_utm pr.link_url
        (pyOrStr pr.utm_campaign ("pr_".toList ++ pr_id)) utm_content = some r) :
    redirect_pr store pr_id utm_content =
      (RedirectResult.redirect r, (track_pr store pr_id "click".toList).2) := by
  unfold redirect_pr
  rw [hpr]
  dsimp only
  rw [if_neg (by simp [hval]), hr]

/-- C3: the redirect flow returns NotFound when the id is absent; a distinct
InvalidRedirectTarget error with the store untouched when the stored
`link_url` fails validation; and otherwise records the click (exactly that
promotion's `click_count` incremented by one, `view_count` and all other rows
unchanged) and reports the 302 target built from the stored URL. -/
theorem c3_redirect_flow (store : List PRBubble) (pr_id utm_content : PyStr) :
    (get_pr_by_id store pr_id = none →
      redirect_pr store pr_id utm_content = (RedirectResult.notFound, store)) ∧
    (∀ pr, get_pr_by_id store pr_id = some pr →
      (is_valid_redirect_url pr.link_url = false →
        redirect_pr store pr_id utm_content = (RedirectResult.invalidTarget, store)) ∧
      (is_valid_redirect_url pr.link_url = true →
        ∃ r pre suf,
          build_redirect_url_with_utm pr.link_url
            (pyOrStr pr.utm_campaign ("pr_".toList ++ pr_id)) utm_content = some r ∧
          store = pre ++ pr :: suf ∧ (∀ q ∈ pre, q.id ≠ pr_id) ∧
          redirect_pr store pr_id utm_content =
            (RedirectResult.redirect r, pre ++ bumpClick pr :: suf) ∧
          (bumpClick pr).click_count = pr.click_count + 1 ∧
          (bumpClick pr).view_count = pr.view_count)) := by
  constructor
  · intro h
    unfold redirect_pr
    rw [h]
  · intro pr hpr
    constructor
    · intro hinv
      unfold redirect_pr
      rw [hpr]
      dsimp only
      rw [if_pos (by simp [hinv])]
    · intro hval
      obtain ⟨p, hp⟩ := urlsplit_of_valid _ hval
      obtain ⟨pre, suf, e1, e2, _, e4⟩ := get_pr_decomp store pr_id pr bumpClick hpr
      obtain ⟨r, hr⟩ : ∃ r, build_redirect_url_with_utm pr.link_url
          (pyOrStr pr.utm_campaign ("pr_".toList ++ pr_id)) utm_content = some r := by
        unfold build_redirect_url_with_utm
        rw [hp]
        exact ⟨_, rfl⟩
      refine ⟨r, pre, suf, hr, e1, e2, ?_, rfl, rfl⟩
      rw [redirect_pr_success store pr_id utm_content pr r hpr hval hr,
        track_click_eq store pr_id pr hpr]
      rw [e4]

/-- C3 witness. -/
theorem c3_witness :
    redirect_pr [basePR] "missing".toList "20240101_0000Z".toList =
      (RedirectResult.notFound, [basePR]) :=
  (c3_redirect_flow [basePR] "missing".toList "20240101_0000Z".toList).1 (by decide)

/-- C10: the campaign used by the redirect flow is the stored `utm_campaign`
when it is a non-empty string, and falls back to `pr_<id>` both when it is
null and when it is the empty string (`pr.utm_campaign or f"pr_{pr_id}"`). -/
theorem c10_campaign (store : List PRBubble) (pr_id utm_content : PyStr)
    (pr : PRBubble) (hpr : get_pr_by_id store pr_id = some pr)
    (hval : is_valid_redirect_url pr.link_url = true) :
    ∃ r, build_redirect_url_with_utm pr.link_url
        (pyOrStr pr.utm_campaign ("pr_".toList ++ pr_id)) utm_content = some r ∧
      (redirect_pr store pr_id utm_content).1 = RedirectResult.redirect r ∧
      (∀ s, pr.utm_campaign = some s → s ≠ [] →
        pyOrStr pr.utm_campaign ("pr_".toList ++ pr_id) = s) ∧
      ((pr.utm_campaign = none ∨ pr.utm_campaign = some []) →
        pyOrStr pr.utm_campaign ("pr_".toList ++ pr_id) = "pr_".toList ++ pr_id) := by
  obtain ⟨p, hp⟩ := urlsplit_of_valid _ hval
  obtain ⟨r, hr⟩ : ∃ r, build_redirect_url_with_utm pr.link_url
      (pyOrStr pr.utm_campaign ("pr_".toList ++ pr_id)) utm_content = some r := by
    unfold build_redirect_url_with_utm
    rw [hp]
    exact ⟨_, rfl⟩
  refine ⟨r, hr, ?_, ?_, ?_⟩
  · rw [redirect_pr_success store pr_id utm_content pr r hpr hval hr]
  · intro s hs hne
    unfold pyOrStr
    rw [hs]
    dsimp only
    rw [if_neg hne]
  · intro hcase
    unfold pyOrStr
    rcases hcase with hn | he
    · rw [hn]
    · rw [he]
      dsimp only
      rw [if_pos rfl]

/-- C10 witness. -/
theorem c10_witness :
    ∃ r, build_redirect_url_with_utm basePR.link_url
        (pyOrStr basePR.utm_campaign ("pr_".toList ++ "base".toList))
        "20240101_0000Z".toList = some r ∧
      (redirect_pr [basePR] "base".toList "20240101_0000Z".toList).1 =
        RedirectResult.redirect r ∧
      (∀ s, basePR.utm_campaign = some s → s ≠ [] →
        pyOrStr basePR.utm_campaign ("pr_".toList ++ "base".toList) = s) ∧
      ((basePR.utm_campaign = none ∨ basePR.utm_campaign = some []) →
        pyOrStr basePR.utm_campaign ("pr_".toList ++ "base".toList) =
          "pr_".toList ++ "base".toList) :=
  c10_campaign [basePR] "base".toList "20240101_0000Z".toList basePR
    (by decide) (by decide)

/-- C2: `is_valid_redirect_url` accepts exactly the strings that `urlsplit`
parses (without raising) to a scheme of exactly `http` or `https` with a
non-empty host (netloc) component; in particular it rejects
`javascript:alert(1)`, `/relative/path`, `ftp://host/x`, the empty string and
`file:` URLs, and accepts `http://a.b` and `https://a.b/c?x=1`. -/
theorem c2_redirect_validation :
    (∀ u : PyStr, is_valid_redirect_url u = true ↔
      ∃ p, urlsplitPy u = some p ∧
        (p.scheme = "http".toList ∨ p.scheme = "https".toList) ∧ p.netloc ≠ []) ∧
    is_valid_redirect_url "javascript:alert(1)".toList = false ∧
    is_valid_redirect_url "/relative/path".toList = false ∧
    is_valid_redirect_url "ftp://host/x".toList = false ∧
    is_valid_redirect_url "".toList = false ∧
    is_valid_redirect_url "file:///etc/passwd".toList = false ∧
    is_valid_redirect_url "http://a.b".toList = true ∧
    is_valid_redirect_url "https://a.b/c?x=1".toList = true := by
  refine ⟨?_, by decide, by decide, by decide, by decide, by decide, by decide,
    by decide⟩
  intro u
  unfold is_valid_redirect_url
  cases hu : urlsplitPy u with
  | none => simp
  | some p =>
    dsimp only
    constructor
    · intro h
      by_cases hs : p.scheme = "http".toList ∨ p.scheme = "https".toList
      · refine ⟨p, rfl, hs, ?_⟩
        intro hn
        rw [if_neg (not_not_intro hs), if_pos hn] at h
        exact absurd h (by simp)
      · rw [if_pos hs] at h
        exact absurd h (by simp)
    · rintro ⟨p', hp', hs, hn⟩
      have : p' = p := Option.some_inj.mp hp'.symm
      subst this
      rw [if_neg (not_not_intro hs), if_neg hn]

/-! ### Round-trip of `parse_qsl` after `urlencode` -/

/-- `hexVal` inverts `hexUpperChar` on nibbles. -/
theorem hexVal_hexUpperChar : ∀ n < 16, hexVal (hexUpperChar n) = some n := by decide

/-- Upper-case hexadecimal digits are quote-output characters. -/
theorem quoteOut_hexUpperChar : ∀ n < 16, quoteOutChar (hexUpperChar n) = true := by
  decide

/-- Hexadecimal digits of escapes are not `+`. -/
theorem hexUpperChar_ne_plus : ∀ n < 16, hexUpperChar n ≠ '+' := by decide

/-- Hexadecimal digits of escapes are not space. -/
theorem hexUpperChar_ne_space : ∀ n < 16, hexUpperChar n ≠ ' ' := by decide

/-- Scanning one `%XX` escape pushes its byte onto the accumulator. -/
theorem unquoteAux_percent (b : Nat) (hb : b < 256) (t : PyStr) (acc : List Nat) :
    unquoteAux (percentEncodeByte b ++ t) acc = unquoteAux t (acc ++ [b]) := by
  have h1 : hexVal (hexUpperChar (b / 16)) = some (b / 16) :=
    hexVal_hexUpperChar _ (by omega)
  have h2 : hexVal (hexUpperChar (b % 16)) = some (b % 16) :=
    hexVal_hexUpperChar _ (by omega)
  have hb' : 16 * (b / 16) + b % 16 = b := Nat.div_add_mod b 16
  unfold percentEncodeByte
  rw [List.cons_append, List.cons_append, List.cons_append, List.nil_append,
    unquoteAux.eq_2, h1, h2]
  dsimp only
  rw [hb']

/-- Scanning a run of `%XX` escapes pushes all their bytes. -/
theorem unquoteAux_percentRun (bs : List Nat) (hbs : ∀ b ∈ bs, b < 256) (t : PyStr)
    (acc : List Nat) :
    unquoteAux (bs.flatMap percentEncodeByte ++ t) acc = unquoteAux t (acc ++ bs) := by
  induction bs generalizing acc with
  | nil => simp
  | cons b bs' ih =>
    rw [List.flatMap_cons, List.append_assoc,
      unquoteAux_percent b (hbs b (by simp)) _ acc,
      ih (fun x hx => hbs x (by simp [hx])), List.append_assoc]
    rfl

/-- Scanning a non-escape character flushes the accumulator. -/
theorem unquoteAux_cons_ne (c : Char) (hc : c ≠ '%') (t : PyStr) (acc : List Nat) :
    unquoteAux (c :: t) acc = utf8DecodeReplace acc ++ c :: unquoteAux t [] :=
  unquoteAux.eq_3 acc c t (fun _ _ _ h _ => hc h)

/-- Decoder step: ASCII byte. -/
theorem utf8Decode_step1 (b0 : Nat) (h : b0 < 128) (bs : List Nat) :
    utf8DecodeReplace (b0 :: bs) = Char.ofNat b0 :: utf8DecodeReplace bs := by
  rcases bs with _ | ⟨b1, _ | ⟨b2, _ | ⟨b3, bs3⟩⟩⟩ <;>
    simp only [utf8DecodeReplace, if_pos h]

/-- Decoder step: two-byte sequence. -/
theorem utf8Decode_step2 (b0 b1 : Nat) (h0 : 194 ≤ b0) (h0' : b0 < 224)
    (h1 : utf8Cont b1 = true) (bs : List Nat) :
    utf8DecodeReplace (b0 :: b1 :: bs) =
      Char.ofNat ((b0 - 192) * 64 + (b1 - 128)) :: utf8DecodeReplace bs := by
  rcases bs with _ | ⟨b2, _ | ⟨b3, bs3⟩⟩ <;>
    simp only [utf8DecodeReplace, if_neg (by omega : ¬b0 < 128),
      if_neg (by omega : ¬b0 < 194), if_pos h0', h1, if_true]

/-- Decoder step: three-byte sequence. -/
theorem utf8Decode_step3 (b0 b1 b2 : Nat) (h0 : 224 ≤ b0) (h0' : b0 < 240)
    (h1 : utf8Second b0 b1 = true) (h2 : utf8Cont b2 = true) (bs : List Nat) :
    utf8DecodeReplace (b0 :: b1 :: b2 :: bs) =
      Char.ofNat ((b0 - 224) * 4096 + (b1 - 128) * 64 + (b2 - 128)) ::
        utf8DecodeReplace bs := by
  rcases bs with _ | ⟨b3, bs3⟩ <;>
    simp only [utf8DecodeReplace, if_neg (by omega : ¬b0 < 128),
      if_neg (by omega : ¬b0 < 194), if_neg (by omega : ¬b0 < 224), if_pos h0',
      h1, h2, if_true]

/-- Decoder step: four-byte sequence. -/
theorem utf8Decode_step4 (b0 b1 b2 b3 : Nat) (h0 : 240 ≤ b0) (h0' : b0 < 245)
    (h1 : utf8Second b0 b1 = true) (h2 : utf8Cont b2 = true)
    (h3 : utf8Cont b3 = true) (bs : List Nat) :
    utf8DecodeReplace (b0 :: b1 :: b2 :: b3 :: bs) =
      Char.ofNat ((b0 - 240) * 262144 + (b1 - 128) * 4096 + (b2 - 128) * 64 +
        (b3 - 128)) :: utf8DecodeReplace bs := by
  simp only [utf8DecodeReplace, if_neg (by omega : ¬b0 < 128),
    if_neg (by omega : ¬b0 < 194), if_neg (by omega : ¬b0 < 224),
    if_neg (by omega : ¬b0 < 240), if_pos h0', h1, h2, h3, if_true]

/-- The code point of a `Char`, as constrained by validity. -/
theorem char_toNat_valid (c : Char) :
    c.toNat < 55296 ∨ (57344 ≤ c.toNat ∧ c.toNat < 1114112) := c.valid

/-- Every byte of a UTF-8 encoding is a byte. -/
theorem utf8EncodeChar_lt (c : Char) : ∀ b ∈ utf8EncodeChar c, b < 256 := by
  intro b hb
  have hv := char_toNat_valid c
  unfold utf8EncodeChar at hb
  dsimp only at hb
  split_ifs at hb <;> simp only [List.mem_cons, List.not_mem_nil, or_false] at hb <;>
    omega

/-- Decoding inverts encoding, one character at a time. -/
theorem utf8Decode_encode (c : Char) (bs : List Nat) :
    utf8DecodeReplace (utf8EncodeChar c ++ bs) = c :: utf8DecodeReplace bs := by
  have hv := char_toNat_valid c
  by_cases h1 : c.toNat < 128
  · have henc : utf8EncodeChar c = [c.toNat] := by
      simp only [utf8EncodeChar, h1, if_true]
    rw [henc, List.cons_append, List.nil_append,
      utf8Decode_step1 _ h1, Char.ofNat_toNat]
  · by_cases h2 : c.toNat < 2048
    · have hstep := utf8Decode_step2 (192 + c.toNat / 64) (128 + c.toNat % 64)
        (by omega) (by omega)
        (by simp only [utf8Cont, Bool.and_eq_true, decide_eq_true_eq]; omega)
        bs
      have henc : utf8EncodeChar c = [192 + c.toNat / 64, 128 + c.toNat % 64] := by
        simp only [utf8EncodeChar, h1, h2, if_false, if_true]
      rw [henc, List.cons_append, List.cons_append,
        List.nil_append, hstep]
      rw [show (192 + c.toNat / 64 - 192) * 64 + (128 + c.toNat % 64 - 128)
          = c.toNat by omega, Char.ofNat_toNat]
    · by_cases h3 : c.toNat < 65536
      · have hsec : utf8Second (224 + c.toNat / 4096) (128 + c.toNat / 64 % 64)
            = true := by
          unfold utf8Second utf8Cont
          split_ifs <;> simp only [Bool.and_eq_true, decide_eq_true_eq] <;> omega
        have hstep := utf8Decode_step3 (224 + c.toNat / 4096)
          (128 + c.toNat / 64 % 64) (128 + c.toNat % 64) (by omega) (by omega)
          hsec
          (by simp only [utf8Cont, Bool.and_eq_true, decide_eq_true_eq]; omega)
          bs
        have henc : utf8EncodeChar c = [224 + c.toNat / 4096,
            128 + c.toNat / 64 % 64, 128 + c.toNat % 64] := by
          simp only [utf8EncodeChar, h1, h2, h3, if_false, if_true]
        rw [henc, List.cons_append, List.cons_append,
          List.cons_append, List.nil_append, hstep]
        rw [show (224 + c.toNat / 4096 - 224) * 4096 +
            (128 + c.toNat / 64 % 64 - 128) * 64 + (128 + c.toNat % 64 - 128)
            = c.toNat by omega, Char.ofNat_toNat]
      · have hsec : utf8Second (240 + c.toNat / 262144)
            (128 + c.toNat / 4096 % 64) = true := by
          unfold utf8Second utf8Cont
          split_ifs <;> simp only [Bool.and_eq_true, decide_eq_true_eq] <;> omega
        have hstep := utf8Decode_step4 (240 + c.toNat / 262144)
          (128 + c.toNat / 4096 % 64) (128 + c.toNat / 64 % 64)
          (128 + c.toNat % 64) (by omega) (by omega) hsec
          (by simp only [utf8Cont, Bool.and_eq_true, decide_eq_true_eq]; omega)
          (by simp only [utf8Cont, Bool.and_eq_true, decide_eq_true_eq]; omega)
          bs
        have henc : utf8EncodeChar c = [240 + c.toNat / 262144,
            128 + c.toNat / 4096 % 64, 128 + c.toNat / 64 % 64,
            128 + c.toNat % 64] := by
          simp only [utf8EncodeChar, h1, h2, h3, if_false, if_true]
        rw [henc, List.cons_append, List.cons_append,
          List.cons_append, List.cons_append, List.nil_append, hstep]
        rw [show (240 + c.toNat / 262144 - 240) * 262144 +
            (128 + c.toNat / 4096 % 64 - 128) * 4096 +
            (128 + c.toNat / 64 % 64 - 128) * 64 + (128 + c.toNat % 64 - 128)
            = c.toNat by omega, Char.ofNat_toNat]

/-- Decoding inverts encoding on whole strings. -/
theorem utf8Decode_flatMap (cs : List Char) :
    utf8DecodeReplace (cs.flatMap utf8EncodeChar) = cs := by
  induction cs with
  | nil => rfl
  | cons c cs' ih => rw [List.flatMap_cons, utf8Decode_encode, ih]

/-- A `%XX` escape is fixed by any character map fixing `%` and the
hexadecimal digits. -/
theorem percentEncodeByte_map (b : Nat) (hb : b < 256) (f : Char → Char)
    (hf : f '%' = '%') (hfh : ∀ n < 16, f (hexUpperChar n) = hexUpperChar n) :
    (percentEncodeByte b).map f = percentEncodeByte b := by
  unfold percentEncodeByte
  simp [hf, hfh (b / 16) (by omega), hfh (b % 16) (by omega)]

/-- `quote_plus` in per-character form. -/
theorem quote_plus_eq_flatMap (s : PyStr) : quote_plus s = s.flatMap quotePlusChar := by
  unfold quote_plus
  by_cases hsp : ' ' ∈ s
  · rw [if_pos hsp, List.map_flatMap]
    apply List.flatMap_congr
    intro c _
    unfold quoteCharKeepSpace quotePlusChar
    by_cases hsafe : alwaysSafeChar c = true
    · have hcne : c ≠ ' ' := by rintro rfl; exact absurd hsafe (by decide)
      rw [if_pos (by simp [hsafe]), if_pos hsafe]
      simp [hcne]
    · by_cases hspc : c = ' '
      · subst hspc
        rw [if_pos (by simp), if_neg hsafe, if_pos rfl]
        simp
      · rw [if_neg (by simp [hsafe, hspc]), if_neg hsafe, if_neg hspc,
          List.map_flatMap]
        apply List.flatMap_congr
        intro b hbmem
        exact percentEncodeByte_map b (utf8EncodeChar_lt c b hbmem) _
          (by decide) (by decide)
  · rw [if_neg hsp]
    unfold quotePy
    apply List.flatMap_congr
    intro c hc
    have hcne : c ≠ ' ' := fun h => hsp (h ▸ hc)
    unfold quoteChar quotePlusChar
    by_cases hsafe : alwaysSafeChar c = true
    · rw [if_pos hsafe, if_pos hsafe]
    · rw [if_neg hsafe, if_neg hsafe, if_neg hcne]

/-- `parse_qsl`'s plus-replacement undoes `quote_plus`'s space encoding. -/
theorem plusToSpace_quote_plus (s : PyStr) :
    plusToSpace (quote_plus s) = s.flatMap unquoteReadyChar := by
  rw [quote_plus_eq_flatMap]
  unfold plusToSpace
  rw [List.map_flatMap]
  apply List.flatMap_congr
  intro c _
  unfold quotePlusChar unquoteReadyChar
  by_cases hsafe : alwaysSafeChar c = true
  · have hcne : c ≠ '+' := by rintro rfl; exact absurd hsafe (by decide)
    rw [if_pos hsafe, if_pos hsafe]
    simp [hcne]
  · by_cases hspc : c = ' '
    · subst hspc
      rw [if_neg hsafe, if_pos rfl, if_neg hsafe, if_pos rfl]
      simp
    · rw [if_neg hsafe, if_neg hspc, if_neg hsafe, if_neg hspc,
        List.map_flatMap]
      apply List.flatMap_congr
      intro b hbmem
      exact percentEncodeByte_map b (utf8EncodeChar_lt c b hbmem) _
        (by decide) (by decide)

/-- Every character of `quote_plus` output is a quote-output character. -/
theorem mem_quote_plus_quoteOut {s : PyStr} {d : Char} (hd : d ∈ quote_plus s) :
    quoteOutChar d = true := by
  rw [quote_plus_eq_flatMap] at hd
  obtain ⟨c, _, hdc⟩ := List.mem_flatMap.mp hd
  unfold quotePlusChar at hdc
  split_ifs at hdc with h1 h2
  · simp only [List.mem_singleton] at hdc
    subst hdc
    simp [quoteOutChar, h1]
  · simp only [List.mem_singleton] at hdc
    subst hdc
    decide
  · obtain ⟨b, hb, hdb⟩ := List.mem_flatMap.mp hdc
    have hb' := utf8EncodeChar_lt c b hb
    unfold percentEncodeByte at hdb
    simp only [List.mem_cons, List.not_mem_nil, or_false] at hdb
    rcases hdb with rfl | rfl | rfl
    · decide
    · exact quoteOut_hexUpperChar _ (by omega)
    · exact quoteOut_hexUpperChar _ (by omega)

/-- Quote-output characters are none of the query delimiters. -/
theorem quoteOut_ne_delims {c : Char} (h : quoteOutChar c = true) :
    c ≠ '&' ∧ c ≠ '=' ∧ c ≠ '#' ∧ c ≠ '?' := by
  refine ⟨?_, ?_, ?_, ?_⟩ <;> rintro rfl <;> exact absurd h (by decide)

/-- Scanning the quoted form of `s` appends `s` to the decoded accumulator. -/
theorem unquote_roundtrip_aux (s : PyStr) (cs : List Char) :
    unquoteAux (s.flatMap unquoteReadyChar) (cs.flatMap utf8EncodeChar) = cs ++ s := by
  induction s generalizing cs with
  | nil =>
    rw [List.flatMap_nil, unquoteAux.eq_1, utf8Decode_flatMap, List.append_nil]
  | cons c s' ih =>
    rw [List.flatMap_cons]
    by_cases hsafe : alwaysSafeChar c = true
    · have hc_eq : unquoteReadyChar c = [c] := by
        unfold unquoteReadyChar
        rw [if_pos hsafe]
      have hne : c ≠ '%' := by rintro rfl; exact absurd hsafe (by decide)
      rw [hc_eq, List.singleton_append, unquoteAux_cons_ne c hne,
        utf8Decode_flatMap,
        show unquoteAux (s'.flatMap unquoteReadyChar) [] = s' from by
          simpa using ih []]
    · by_cases hspc : c = ' '
      · subst hspc
        have hc_eq : unquoteReadyChar ' ' = [' '] := by
          unfold unquoteReadyChar
          rw [if_neg hsafe, if_pos rfl]
        rw [hc_eq, List.singleton_append, unquoteAux_cons_ne _ (by decide),
          utf8Decode_flatMap,
          show unquoteAux (s'.flatMap unquoteReadyChar) [] = s' from by
            simpa using ih []]
      · have hc_eq : unquoteReadyChar c =
            (utf8EncodeChar c).flatMap percentEncodeByte := by
          unfold unquoteReadyChar
          rw [if_neg hsafe, if_neg hspc]
        rw [hc_eq, unquoteAux_percentRun _ (utf8EncodeChar_lt c) _ _,
          show (cs.flatMap utf8EncodeChar) ++ utf8EncodeChar c
              = (cs ++ [c]).flatMap utf8EncodeChar from by
            rw [List.flatMap_append]; simp,
          ih (cs ++ [c])]
        simp

/-- `unquote_plus` inverts `quote_plus`. -/
theorem unquote_plus_quote_plus (s : PyStr) : unquote_plus (quote_plus s) = s := by
  unfold unquote_plus unquotePy
  rw [plusToSpace_quote_plus]
  simpa using unquote_roundtrip_aux s []

/-- Splitting a separator-free string yields one piece. -/
theorem pySplitChar_no_sep (sep : Char) (p : PyStr) (hp : sep ∉ p) :
    pySplitChar sep p = [p] := by
  induction p with
  | nil => rfl
  | cons c rest ih =>
    have hc : c ≠ sep := by rintro rfl; exact hp (by simp)
    simp only [pySplitChar, if_neg hc,
      ih (fun h => hp (List.mem_cons_of_mem _ h))]
    rfl

/-- Splitting past a separator-free head piece. -/
theorem pySplitChar_append (sep : Char) (p rest : PyStr) (hp : sep ∉ p) :
    pySplitChar sep (p ++ sep :: rest) = p :: pySplitChar sep rest := by
  induction p with
  | nil => simp [pySplitChar]
  | cons c p' ih =>
    have hc : c ≠ sep := by rintro rfl; exact hp (by simp)
    rw [List.cons_append]
    simp only [pySplitChar, if_neg hc,
      ih (fun h => hp (List.mem_cons_of_mem _ h))]
    rfl

/-- `str.split(sep)` inverts `sep.join` on separator-free pieces. -/
theorem pySplitChar_join (sep : Char) (pieces : List PyStr) (hne : pieces ≠ [])
    (hsep : ∀ p ∈ pieces, sep ∉ p) :
    pySplitChar sep (pyJoinChar sep pieces) = pieces := by
  induction pieces with
  | nil => contradiction
  | cons p ps ih =>
    cases ps with
    | nil => exact pySplitChar_no_sep sep p (hsep p (by simp))
    | cons q qs =>
      rw [show pyJoinChar sep (p :: q :: qs) = p ++ sep :: pyJoinChar sep (q :: qs)
          from rfl,
        pySplitChar_append sep p _ (hsep p (by simp)),
        ih (by simp) (fun x hx => hsep x (List.mem_cons_of_mem _ hx))]

/-- `s.split(sep, 1)` after a separator-free head piece. -/
theorem pySplitFirst_append (sep : Char) (k v : PyStr) (hk : sep ∉ k) :
    pySplitFirst sep (k ++ sep :: v) = (k, some v) := by
  induction k with
  | nil => simp [pySplitFirst]
  | cons c k' ih =>
    have hc : c ≠ sep := by rintro rfl; exact hk (by simp)
    rw [List.cons_append]
    simp only [pySplitFirst, if_neg hc,
      ih (fun h => hk (List.mem_cons_of_mem _ h))]

/-- An encoded query of at least one pair is non-empty. -/
theorem urlencode_ne_nil (pairs : List (PyStr × PyStr)) (h : pairs ≠ []) :
    urlencode pairs ≠ [] := by
  unfold urlencode
  cases pairs with
  | nil => contradiction
  | cons kv rest =>
    cases rest with
    | nil =>
      simp only [List.map_cons, List.map_nil, pyJoinChar]
      intro he
      rcases List.append_eq_nil.mp he with ⟨_, h2⟩
      exact List.noConfusion h2
    | cons kv2 rest2 =>
      simp only [List.map_cons, pyJoinChar]
      intro he
      rcases List.append_eq_nil.mp he with ⟨_, h2⟩
      exact List.noConfusion h2

/-- The characters of an encoded `k=v` piece. -/
theorem mem_piece (kv : PyStr × PyStr) {c : Char}
    (hc : c ∈ quote_plus kv.1 ++ '=' :: quote_plus kv.2) :
    quoteOutChar c = true ∨ c = '=' := by
  rcases List.mem_append.mp hc with h | h
  · exact Or.inl (mem_quote_plus_quoteOut h)
  · rcases List.mem_cons.mp h with rfl | h
    · exact Or.inr rfl
    · exact Or.inl (mem_quote_plus_quoteOut h)

/-- `parse_qsl` inverts `urlencode` on every non-empty pair list: the decoded
query pairs come back exactly and in order. -/
theorem parse_qsl_urlencode (pairs : List (PyStr × PyStr)) (hne : pairs ≠ []) :
    parse_qsl (urlencode pairs) = pairs := by
  have hqs := urlencode_ne_nil pairs hne
  unfold parse_qsl
  rw [if_neg hqs]
  unfold urlencode
  rw [pySplitChar_join '&' _
    (fun h => hne (List.map_eq_nil_iff.mp h))
    (by
      intro p hp
      obtain ⟨kv, _, rfl⟩ := List.mem_map.mp hp
      intro hamp
      rcases mem_piece kv hamp with h | h
      · exact absurd h (by decide)
      · exact absurd h (by decide))]
  have hstep : ∀ kv : PyStr × PyStr,
      (if quote_plus kv.1 ++ '=' :: quote_plus kv.2 = [] then ([] : List (PyStr × PyStr))
       else
        match pySplitFirst '=' (quote_plus kv.1 ++ '=' :: quote_plus kv.2) with
        | (name, some value) => [(unquote_plus name, unquote_plus value)]
        | (name, none) => [(unquote_plus name, [])]) = [kv] := by
    intro kv
    rw [if_neg (by
      intro he
      rcases List.append_eq_nil.mp he with ⟨_, h2⟩
      exact List.noConfusion h2)]
    rw [pySplitFirst_append '=' _ _ (fun h =>
      ((quoteOut_ne_delims (mem_quote_plus_quoteOut h)).2.1) rfl)]
    dsimp only
    rw [unquote_plus_quote_plus, unquote_plus_quote_plus]
  clear hqs hne
  induction pairs with
  | nil => rfl
  | cons kv rest ih =>
    rw [List.map_cons, List.flatMap_cons, hstep kv, List.singleton_append, ih]

/-! ### C1: structure of the built redirect URL -/

/-- The fragment/query splitting of `splitRest` passes scheme and netloc
through and yields a path free of `?` and `#`. -/
theorem components_of_splitRest (S N R : PyStr) (p : SplitResult)
    (hp : splitRest S N R = p)
    (hS : ∀ c ∈ S, c ≠ '?' ∧ c ≠ '#') (hN : ∀ c ∈ N, c ≠ '?' ∧ c ≠ '#') :
    (∀ c ∈ p.scheme, c ≠ '?' ∧ c ≠ '#') ∧ (∀ c ∈ p.netloc, c ≠ '?' ∧ c ≠ '#') ∧
    (∀ c ∈ p.path, c ≠ '?' ∧ c ≠ '#') := by
  subst hp
  refine ⟨hS, hN, ?_⟩
  intro c hc
  have hc1 : c ∈ (R.takeWhile (· ≠ '#')).takeWhile (· ≠ '?') := hc
  constructor
  · have h1 := List.mem_takeWhile_imp hc1
    simpa using h1
  · have h2 : c ∈ R.takeWhile (· ≠ '#') := List.takeWhile_subset _ hc1
    have h3 := List.mem_takeWhile_imp h2
    simpa using h3

/-- Characters kept inside the netloc by `_splitnetloc` are not `?` or `#`. -/
theorem mem_netloc_ne {l : PyStr} {c : Char} (hc : c ∈ l.takeWhile netlocChar) :
    c ≠ '?' ∧ c ≠ '#' := by
  have h := List.mem_takeWhile_imp hc
  simp only [netlocChar, decide_eq_true_eq, not_or] at h
  exact ⟨h.2.1, h.2.2⟩

/-- Lower-casing a scheme character never produces `?` or `#`. -/
theorem asciiLower_schemeChar_ne (c : Char) (h : schemeChar c = true) :
    asciiLowerChar c ≠ '?' ∧ asciiLowerChar c ≠ '#' := by
  have hq : ('?' : Char).toNat = 63 := rfl
  have hh : ('#' : Char).toNat = 35 := rfl
  simp only [schemeChar, Bool.or_eq_true, Bool.and_eq_true, decide_eq_true_eq] at h
  unfold asciiLowerChar
  by_cases hc : 65 ≤ c.toNat ∧ c.toNat ≤ 90
  · rw [if_pos hc]
    have ht := toNat_ofNat_valid (show (c.toNat + 32).isValidChar from Or.inl (by omega))
    refine ⟨?_, ?_⟩ <;> intro he <;> rw [char_eq_iff_toNat] at he <;> omega
  · rw [if_neg hc]
    refine ⟨?_, ?_⟩ <;> intro he <;> rw [char_eq_iff_toNat] at he <;> omega

/-- The scheme, netloc and path produced by `urlsplitTail` contain no `?` or
`#` when the supplied scheme does not. -/
theorem urlsplitTail_components (S rest : PyStr) (p : SplitResult)
    (hS : ∀ c ∈ S, c ≠ '?' ∧ c ≠ '#') (h : urlsplitTail S rest = some p) :
    (∀ c ∈ p.scheme, c ≠ '?' ∧ c ≠ '#') ∧ (∀ c ∈ p.netloc, c ≠ '?' ∧ c ≠ '#') ∧
    (∀ c ∈ p.path, c ≠ '?' ∧ c ≠ '#') := by
  unfold urlsplitTail at h
  by_cases h2 : rest.take 2 = ['/', '/']
  · rw [if_pos h2] at h
    dsimp only at h
    split at h
    · exact absurd h (by simp)
    · split at h
      · split at h
        · exact components_of_splitRest _ _ _ _ (Option.some_inj.mp h) hS
            (fun c hc => mem_netloc_ne hc)
        · exact absurd h (by simp)
      · exact components_of_splitRest _ _ _ _ (Option.some_inj.mp h) hS
          (fun c hc => mem_netloc_ne hc)
  · rw [if_neg h2] at h
    exact components_of_splitRest _ _ _ _ (Option.some_inj.mp h) hS (by simp)

/-- The scheme, netloc and path of any `urlsplit` result contain no `?` or
`#`: those characters always end up in the query or the fragment. -/
theorem urlsplit_components (u : PyStr) (p : SplitResult)
    (h : urlsplitPy u = some p) :
    (∀ c ∈ p.scheme, c ≠ '?' ∧ c ≠ '#') ∧ (∀ c ∈ p.netloc, c ≠ '?' ∧ c ≠ '#') ∧
    (∀ c ∈ p.path, c ≠ '?' ∧ c ≠ '#') := by
  unfold urlsplitPy at h
  dsimp only at h
  split at h
  · rename_i hcond
    refine urlsplitTail_components _ _ _ ?_ h
    intro c hc
    obtain ⟨d, hd, rfl⟩ := List.mem_map.mp hc
    have hall := hcond.2.2.2
    rw [List.all_eq_true] at hall
    exact asciiLower_schemeChar_ne d (hall d hd)
  · exact urlsplitTail_components _ _ _ (by simp) h

/-- Membership in a one-character join: the separator or some piece. -/
theorem mem_pyJoinChar (sep : Char) (pieces : List PyStr) :
    ∀ c ∈ pyJoinChar sep pieces, c = sep ∨ ∃ p ∈ pieces, c ∈ p := by
  induction pieces with
  | nil => intro c hc; exact absurd hc (by simp [pyJoinChar])
  | cons p ps ih =>
    intro c hc
    cases ps with
    | nil => exact Or.inr ⟨p, by simp, hc⟩
    | cons q qs =>
      rw [show pyJoinChar sep (p :: q :: qs) = p ++ sep :: pyJoinChar sep (q :: qs)
        from rfl] at hc
      rcases List.mem_append.mp hc with h | h
      · exact Or.inr ⟨p, by simp, h⟩
      · rcases List.mem_cons.mp h with rfl | h
        · exact Or.inl rfl
        · rcases ih c h with h' | ⟨x, hx, hcx⟩
          · exact Or.inl h'
          · exact Or.inr ⟨x, List.mem_cons_of_mem p hx, hcx⟩

/-- No character of an encoded query is `?` or `#` (they are percent-escaped
by `quote_plus`, and the joiners are `&` and `=`). -/
theorem urlencode_chars (pairs : List (PyStr × PyStr)) :
    ∀ c ∈ urlencode pairs, c ≠ '?' ∧ c ≠ '#' := by
  intro c hc
  unfold urlencode at hc
  rcases mem_pyJoinChar '&' _ c hc with rfl | ⟨piece, hpiece, hcp⟩
  · exact ⟨by decide, by decide⟩
  · obtain ⟨kv, _, rfl⟩ := List.mem_map.mp hpiece
    rcases mem_piece kv hcp with h | rfl
    · have hd := quoteOut_ne_delims h
      exact ⟨hd.2.2.2, hd.2.2.1⟩
    · exact ⟨by decide, by decide⟩

/-- `urlunsplitBase` only adds `/` characters around netloc and path. -/
theorem urlunsplitBase_chars (p : SplitResult)
    (hN : ∀ c ∈ p.netloc, c ≠ '?' ∧ c ≠ '#')
    (hP : ∀ c ∈ p.path, c ≠ '?' ∧ c ≠ '#') :
    ∀ c ∈ urlunsplitBase p, c ≠ '?' ∧ c ≠ '#' := by
  have hP2 : ∀ c ∈ (if p.path ≠ [] ∧ p.path.take 1 ≠ ['/'] then '/' :: p.path else p.path),
      c ≠ '?' ∧ c ≠ '#' := by
    by_cases h : p.path ≠ [] ∧ p.path.take 1 ≠ ['/']
    · rw [if_pos h]
      intro c hc
      rcases List.mem_cons.mp hc with rfl | hc
      · exact ⟨by decide, by decide⟩
      · exact hP c hc
    · rw [if_neg h]
      exact hP
  unfold urlunsplitBase
  by_cases h : p.netloc ≠ [] ∨ (p.scheme ≠ [] ∧ p.scheme ∈ usesNetloc ∧
      p.path.take 2 ≠ ['/', '/'])
  · rw [if_pos h]
    intro c hc
    rcases List.mem_cons.mp hc with rfl | hc
    · exact ⟨by decide, by decide⟩
    rcases List.mem_cons.mp hc with rfl | hc
    · exact ⟨by decide, by decide⟩
    rcases List.mem_append.mp hc with hc | hc
    · exact hN c hc
    · exact hP2 c hc
  · rw [if_neg h]
    exact hP

/-- Everything `urlunsplit` places before the query — scheme, `:`, `//`,
netloc and path material — is free of `?` and `#` when those components
are. -/
theorem urlunsplitPre_chars (p : SplitResult)
    (hS : ∀ c ∈ p.scheme, c ≠ '?' ∧ c ≠ '#')
    (hN : ∀ c ∈ p.netloc, c ≠ '?' ∧ c ≠ '#')
    (hP : ∀ c ∈ p.path, c ≠ '?' ∧ c ≠ '#') :
    ∀ c ∈ urlunsplitPre p, c ≠ '?' ∧ c ≠ '#' := by
  unfold urlunsplitPre
  by_cases h : p.scheme ≠ []
  · rw [if_pos h]
    intro c hc
    rcases List.mem_append.mp hc with hc | hc
    · exact hS c hc
    rcases List.mem_cons.mp hc with rfl | hc
    · exact ⟨by decide, by decide⟩
    · exact urlunsplitBase_chars p hN hP c hc
  · rw [if_neg h]
    exact urlunsplitBase_chars p hN hP

/-- With a non-empty query, `urlunsplit` output is `urlunsplitPre`, then `?`
and the query, then the fragment after `#` when one is present. -/
theorem urlunsplit_shape (p : SplitResult) (hq : p.query ≠ []) :
    urlunsplitPy p = urlunsplitPre p ++ '?' :: p.query ++
      (if p.fragment = [] then [] else '#' :: p.fragment) := by
  unfold urlunsplitPy
  dsimp only
  rw [if_pos hq]
  by_cases hf : p.fragment = []
  · rw [if_neg (not_not_intro hf), if_pos hf, List.append_nil]
  · rw [if_pos hf, if_neg hf]

/-- C1: on every URL `u` that `urlsplit` parses to `p`, the redirect build
(a pure Lean function of its three arguments, like the Python function is of
`(url, campaign, content)`) succeeds and its result decomposes as a prefix
containing no `?` or `#` (the scheme/netloc/path material), then `?`, then
the re-encoded query — itself free of `?` and `#`, and decoding back to
exactly the original non-UTM query pairs in order (repeated keys and blank
values included) followed by `utm_source=line`, `utm_medium=pr_bubble`,
`utm_campaign=c`, `utm_content=t` — then `#` and the unchanged fragment
exactly when `u` had one. -/
theorem c1_build_redirect (u utm_campaign utm_content : PyStr) (p : SplitResult)
    (hp : urlsplitPy u = some p) :
    ∃ r, build_redirect_url_with_utm u utm_campaign utm_content = some r ∧
      parse_qsl (urlencode (utmNewPairs p.query utm_campaign utm_content)) =
        utmNewPairs p.query utm_campaign utm_content ∧
      ∃ pre, r = pre ++ '?' :: urlencode (utmNewPairs p.query utm_campaign utm_content) ++
          (if p.fragment = [] then [] else '#' :: p.fragment) ∧
        (∀ c ∈ pre, c ≠ '?' ∧ c ≠ '#') ∧
        (∀ c ∈ urlencode (utmNewPairs p.query utm_campaign utm_content),
          c ≠ '?' ∧ c ≠ '#') := by
  have hne : utmNewPairs p.query utm_campaign utm_content ≠ [] := by
    unfold utmNewPairs
    intro he
    rcases List.append_eq_nil.mp he with ⟨_, h2⟩
    exact List.noConfusion h2
  obtain ⟨hS, hN, hP⟩ := urlsplit_components u p hp
  refine ⟨urlunsplitPy { p with
      query := urlencode (utmNewPairs p.query utm_campaign utm_content) },
    ?_, parse_qsl_urlencode _ hne,
    urlunsplitPre { p with
      query := urlencode (utmNewPairs p.query utm_campaign utm_content) },
    ?_, ?_, urlencode_chars _⟩
  · unfold build_redirect_url_with_utm
    rw [hp]
    rfl
  · exact urlunsplit_shape _ (urlencode_ne_nil _ hne)
  · exact urlunsplitPre_chars _ hS hN hP

/-- C1 witness: the spec example with campaign `c1`, content
`20240101_0000Z`. -/
theorem c1_witness :
    ∃ r, build_redirect_url_with_utm "https://x.com/p?a=1&utm_source=old#frag".toList
        "c1".toList "20240101_0000Z".toList = some r ∧
      parse_qsl (urlencode (utmNewPairs "a=1&utm_source=old".toList "c1".toList
          "20240101_0000Z".toList)) =
        utmNewPairs "a=1&utm_source=old".toList "c1".toList "20240101_0000Z".toList ∧
      ∃ pre, r = pre ++ '?' :: urlencode (utmNewPairs "a=1&utm_source=old".toList
            "c1".toList "20240101_0000Z".toList) ++
          (if ("frag".toList : PyStr) = [] then [] else '#' :: "frag".toList) ∧
        (∀ c ∈ pre, c ≠ '?' ∧ c ≠ '#') ∧
        (∀ c ∈ urlencode (utmNewPairs "a=1&utm_source=old".toList "c1".toList
            "20240101_0000Z".toList), c ≠ '?' ∧ c ≠ '#') :=
  c1_build_redirect "https://x.com/p?a=1&utm_source=old#frag".toList "c1".toList
    "20240101_0000Z".toList
    ⟨"https".toList, "x.com".toList, "/p".toList, "a=1&utm_source=old".toList,
      "frag".toList⟩
    (by decide)

end GizPR
